import Mathlib

/-!
# Verification of the ferrix SimpleExt4 filesystem engine and external sorter

This file gives a shallow embedding, in Lean 4, of the core of the ferrix
repository: the bitmap block groups, the direct/indirect/double-indirect
block-pointer scheme, the write/read/unlink/create paths of the filesystem
engine, the checksummed record serialisation, and the bounded-memory external
merge sorter.  Each definition is translated from the Rust source
(`src/simple_ext4/types.rs`, `src/simple_ext4/fs.rs`, `src/simple_ext4/mod.rs`,
`src/sort.rs`, `src/ext_arr.rs`); theorems at the end of the file settle the
spec claims against these definitions.

Modelling conventions:
* Rust machine integers are modelled as `Nat`, with `% 2^w` made explicit at
  the points where the source performs a narrowing cast (`as u32`).
* Fallible Rust code (`Result`, panics) is modelled with `Except FSErr`;
  a Rust panic (assertion failure, division by zero, index out of bounds on a
  non-`Option` access) is modelled by the distinguished error `FSErr.PANIC`.
* The mmap'd data region is modelled byte-addressably as a function
  `Nat → Nat → Nat` (global data-block index → byte offset inside the block →
  byte value); `read_u32`/`write_u32` assemble and spread little-endian u32s
  exactly as `u32::from_le_bytes`/`to_le_bytes` do.
* On-disk inode and directory records are stored through their (de)serialised
  bytes in the source; record (de)serialisation round-trips through `bincode`
  (verified separately in the serialisation section below), so the engine
  state model stores inode and directory records at value level, keyed by the
  same positions (`inode_seek_position`, `data_block_seek_position`) the
  source computes.
-/

namespace Ferrix

/-- POSIX errno values the engine can reply with, plus `PANIC`, which models a
Rust panic (failed assertion, arithmetic underflow/division by zero, or an
out-of-bounds index). -/
inductive FSErr where
  | ENOENT | ENOTDIR | ENOSPC | EIO | EACCES | EINVAL | PANIC
  deriving DecidableEq, Repr

/-! ## Bitmap block groups (`types.rs`, `struct Group`)

A `Group` holds two bitmaps and two cached "next free" hints.  `bitvec`
bitmaps are modelled as `List Bool`; `BitVec::get` out of range yields
`None` in Rust and is defaulted to `false` (`unwrap_or(&false)`), which
`List.getD` models exactly.  `bitvec`'s `set` panics out of range; the model
uses `List.set`, which is a no-op out of range — theorems about `release`
therefore carry an in-range hypothesis. -/

structure Group where
  data_bitmap : List Bool
  inode_bitmap : List Bool
  next_inode : Option Nat
  next_data_block : Option Nat
  deriving Repr, DecidableEq

namespace Group

/-- Rust `iterator.position(|bit| !*bit)`: index of the first `false`. -/
def position_false : List Bool → Option Nat
  | [] => none
  | b :: rest => if !b then some 0 else (position_false rest).map (· + 1)

/-- `Group::next_free_data_block`. -/
def next_free_data_block (g : Group) : Option Nat :=
  (position_false g.data_bitmap).map (· + 1)

/-- `Group::next_free_inode`. -/
def next_free_inode (g : Group) : Option Nat :=
  (position_false g.inode_bitmap).map (· + 1)

/-- `Group::new`: store the bitmaps and initialise both caches by scanning. -/
def new (data_bitmap inode_bitmap : List Bool) : Group :=
  let g : Group := ⟨data_bitmap, inode_bitmap, none, none⟩
  { g with
    next_data_block := g.next_free_data_block
    next_inode := g.next_free_inode }

/-- `Group::has_inode` (1-based; out of range counts as free). -/
def has_inode (g : Group) (i : Nat) : Bool := g.inode_bitmap.getD (i - 1) false

/-- `Group::has_data_block`. -/
def has_data_block (g : Group) (i : Nat) : Bool := g.data_bitmap.getD (i - 1) false

/-- `Group::free_inodes` = `count_zeros` of the inode bitmap. -/
def free_inodes (g : Group) : Nat := g.inode_bitmap.count false

/-- `Group::free_data_blocks`. -/
def free_data_blocks (g : Group) : Nat := g.data_bitmap.count false

/-- `Group::add_inode`: set bit `i-1`. -/
def add_inode (g : Group) (i : Nat) : Group :=
  { g with inode_bitmap := g.inode_bitmap.set (i - 1) true }

/-- `Group::add_data_block`. -/
def add_data_block (g : Group) (i : Nat) : Group :=
  { g with data_bitmap := g.data_bitmap.set (i - 1) true }

/-- `Group::allocate_inode`: hand out the cached index (if any), set its bit,
and advance the cache by rescanning the updated bitmap. -/
def allocate_inode (g : Group) : Option Nat × Group :=
  match g.next_inode with
  | none => (none, g)
  | some index =>
    let g' := g.add_inode index
    (some index, { g' with next_inode := g'.next_free_inode })

/-- `Group::allocate_data_block`. -/
def allocate_data_block (g : Group) : Option Nat × Group :=
  match g.next_data_block with
  | none => (none, g)
  | some index =>
    let g' := g.add_data_block index
    (some index, { g' with next_data_block := g'.next_free_data_block })

/-- `Group::release_inode`: clear bit `index-1` and rescan the cache. -/
def release_inode (g : Group) (index : Nat) : Group :=
  let g' := { g with inode_bitmap := g.inode_bitmap.set (index - 1) false }
  { g' with next_inode := g'.next_free_inode }

/-- `Group::release_data_block`. -/
def release_data_block (g : Group) (index : Nat) : Group :=
  let g' := { g with data_bitmap := g.data_bitmap.set (index - 1) false }
  { g' with next_data_block := g'.next_free_data_block }

end Group

/-- One allocate/release call on a `Group` (the claim quantifies over any
sequence of them). -/
inductive GroupOp where
  | allocI | allocD | relI (i : Nat) | relD (i : Nat)

/-- Apply one operation (allocation results are discarded; they only matter
through the state). -/
def Group.applyOp (g : Group) : GroupOp → Group
  | .allocI => g.allocate_inode.2
  | .allocD => g.allocate_data_block.2
  | .relI i => g.release_inode i
  | .relD i => g.release_data_block i

/-- Apply a sequence of operations. -/
def Group.applyOps (g : Group) (ops : List GroupOp) : Group :=
  ops.foldl Group.applyOp g

/-- `i` is the smallest free 1-based index of bitmap `bm`: its bit is 0 and
every earlier bit is 1 (out-of-range reads default to "allocated" here so the
predicate pins `i` inside the bitmap). -/
def isSmallestFree (bm : List Bool) (i : Nat) : Prop :=
  1 ≤ i ∧ bm.getD (i - 1) true = false ∧ ∀ j, j + 1 < i → bm.getD j true = true

/-- The cached hints coincide with a fresh scan of the bitmaps. -/
def Group.cacheAccurate (g : Group) : Prop :=
  g.next_inode = g.next_free_inode ∧ g.next_data_block = g.next_free_data_block

/-! ## Inodes and the block-pointer scheme (`types.rs`, `fs.rs`, `mod.rs`) -/

/-- `mod.rs`: `DIRECT_POINTERS = 12`. -/
def DIRECT_POINTERS : Nat := 12

/-- `mod.rs`: `INODE_SIZE = 128`. -/
def INODE_SIZE : Nat := 128

/-- `mod.rs`: `SUPERBLOCK_SIZE = 1024`. -/
def SUPERBLOCK_SIZE : Nat := 1024

/-- `mod.rs`: `ROOT_INODE = 1`. -/
def ROOT_INODE : Nat := 1

/-- A `SystemTime`, as serde sees it: seconds and subsecond nanoseconds since
the Unix epoch. -/
structure SysTime where
  secs : Nat
  nanos : Nat
  deriving DecidableEq, Repr

/-- `types.rs`, `struct Inode` (the `u32`/`u64`/`u16` fields are modelled as
`Nat`; `direct_blocks` is the source's `[u32; 12]` as a list whose length-12
well-formedness accompanies the states that use it). -/
structure Inode where
  mode : Nat
  hard_links : Nat
  user_id : Nat
  group_id : Nat
  block_count : Nat
  size : Nat
  created_at : SysTime
  accessed_at : SysTime
  modified_at : SysTime
  changed_at : SysTime
  direct_blocks : List Nat
  indirect_block : Nat
  double_indirect_block : Nat
  checksum : Nat
  block_size : Nat
  deriving DecidableEq, Repr

namespace Inode

/-- `Inode::new(block_size)`; `SystemTime::now()` is passed in as `now`. -/
def new (block_size : Nat) (now : SysTime) : Inode where
  mode := 0
  hard_links := 1
  user_id := 0
  group_id := 0
  block_count := 0
  size := 0
  created_at := now
  accessed_at := now
  modified_at := now
  changed_at := now
  direct_blocks := List.replicate 12 0
  indirect_block := 0
  double_indirect_block := 0
  checksum := 0
  block_size := block_size

/-- `libc::S_IFDIR` (0o040000). -/
def S_IFDIR : Nat := 0o040000

/-- `Inode::is_dir`: `(mode & S_IFDIR) != 0`. -/
def is_dir (inode : Inode) : Bool := inode.mode &&& S_IFDIR ≠ 0

/-- `Inode::find_direct_block`: `self.direct_blocks[index]`.  The source
indexes a `[u32; 12]` (panicking out of range); every engine call site
guards `index < 12`, where `getD` coincides with the array access. -/
def find_direct_block (inode : Inode) (index : Nat) : Nat :=
  inode.direct_blocks.getD index 0

/-- `Inode::direct_blocks()`: the nonzero direct pointers, in order. -/
def direct_blocks_nonzero (inode : Inode) : List Nat :=
  inode.direct_blocks.filter (· ≠ 0)

/-- `Inode::add_block`: store `block` at `direct_blocks[index]`, or fail when
`index` is out of range. -/
def add_block (inode : Inode) (block : Nat) (index : Nat) : Option Inode :=
  if index ≥ inode.direct_blocks.length then none
  else some { inode with direct_blocks := inode.direct_blocks.set index block }

/-- `Inode::adjust_size`: `size = max(size, len); block_count = size as u32 / 512 + 1`. -/
def adjust_size (inode : Inode) (len : Nat) : Inode :=
  let size := max inode.size len
  { inode with size := size, block_count := size % 2 ^ 32 / 512 + 1 }

/-- `Inode::increment_size`: `size += len` (u64 wrap-around made explicit);
`block_count = size as u32 / 512 + 1`. -/
def increment_size (inode : Inode) (len : Nat) : Inode :=
  let size := (inode.size + len) % 2 ^ 64
  { inode with size := size, block_count := size % 2 ^ 32 / 512 + 1 }

/-- `Inode::update_modified_at` (`SystemTime::now()` passed in). -/
def update_modified_at (inode : Inode) (now : SysTime) : Inode :=
  { inode with changed_at := now, modified_at := now }

/-- `Inode::update_accessed_at`. -/
def update_accessed_at (inode : Inode) (now : SysTime) : Inode :=
  { inode with accessed_at := now }

end Inode

/-! ## The data region and the indirect-pointer walk (`fs.rs`)

The mmap'd data region is a byte store addressed by global data-block index
and byte offset within the block.  (The engine's seek arithmetic
`data_block_seek_position` maps these pairs injectively to file offsets, so
the pair-addressed view is faithful for accesses that stay inside one block —
which all engine accesses do: every `write_data`/`read_data` call writes or
reads at most `block_size - offset` bytes.) -/

/-- The data region: global data-block index → byte offset → byte. -/
def Disk := Nat → Nat → Nat

/-- `FS::read_u32(offset, block_index)`: read the 4 bytes at byte offset
`4*offset` of the block and assemble them with `u32::from_le_bytes`. -/
def read_u32 (d : Disk) (offset : Nat) (block_index : Nat) : Nat :=
  d block_index (4 * offset) % 256 +
    256 * (d block_index (4 * offset + 1) % 256) +
    65536 * (d block_index (4 * offset + 2) % 256) +
    16777216 * (d block_index (4 * offset + 3) % 256)

/-- `FS::write_data(data, offset, block_index)` on the data region: copy the
bytes of `data` to offsets `offset..offset+len` of the block.  (Engine call
sites keep `offset + len ≤ block_size`.)  Returns the updated region; the
byte count written is `data.length`. -/
def write_data (d : Disk) (data : List Nat) (offset : Nat) (block_index : Nat) : Disk :=
  fun b o =>
    if b = block_index ∧ offset ≤ o ∧ o < offset + data.length then
      data.getD (o - offset) 0
    else d b o

/-- The little-endian bytes of a `u32` (`u32::to_le_bytes`). -/
def u32_le_bytes (v : Nat) : List Nat :=
  [v % 256, v / 256 % 256, v / 65536 % 256, v / 16777216 % 256]

/-- `FS::find_indirect(pointer, index, offset, pointers_per_block)`: walk one
or two levels of indirect pointers.  A zero pointer is returned as-is (a
hole).  When `pointers_per_block = 0` the source divides by zero (a panic);
that case is modelled as 0 and is unreachable for any real block size. -/
def find_indirect (d : Disk) (P : Nat) (pointer : Nat) (index : Nat) : Nat :=
  if pointer = 0 then pointer
  else if _hP : P = 0 then 0
  else
    let off := if index < P then index &&& (P - 1) else index / P - 1
    let block := read_u32 d off pointer
    if _h : block = 0 ∨ index < P then block
    else find_indirect d P block (index &&& (P - 1))
termination_by index
decreasing_by
  have h1 : index &&& (P - 1) ≤ P - 1 := Nat.and_le_right
  omega

/-- `FS::find_data_block` in read mode (`read == true`), `fs.rs` 203-244: map
a byte offset to `(physical block, bytes until the end of that block)`; a
hole is `EINVAL`, beyond the double-indirect range is `ENOSPC`.  (In the
model the backing-store reads of `find_indirect` cannot fail, so the
source's `map_err(EIO)` on them never fires.  `offset / blk_size` with
`blk_size = 0` panics in the source.) -/
def find_data_block_read (d : Disk) (blk_size : Nat) (inode : Inode) (offset : Nat) :
    Except FSErr (Nat × Nat) :=
  if blk_size = 0 then .error .PANIC
  else
    let index := offset / blk_size
    let P := blk_size / 4
    let blockE : Except FSErr Nat :=
      if index < DIRECT_POINTERS then .ok (inode.find_direct_block index)
      else if index < P + DIRECT_POINTERS then
        .ok (find_indirect d P inode.indirect_block (index - DIRECT_POINTERS))
      else if index < P * P + P + DIRECT_POINTERS then
        .ok (find_indirect d P inode.double_indirect_block (index - DIRECT_POINTERS))
      else .error .ENOSPC
    match blockE with
    | .error e => .error e
    | .ok block =>
      if block ≠ 0 then .ok (block, ((index + 1) * blk_size - offset) % 2 ^ 32)
      else .error .EINVAL

/-! ## The engine state (`fs.rs`, `struct SimpleExt4FS`)

The engine owns the superblock, the group vector, and the mmap.  The mmap is
split here into its three disjoint record views: the data region as raw bytes
(`disk`), the inode table as the records that deserialising would return
(`inodeTable`, keyed by global inode index — the key `inode_seek_position`
maps injectively to a file offset), and directory records (`dirTable`, keyed
by the index the engine passes to `data_block_seek_position` when it
serialises or deserialises a directory).  Directory records physically live
inside data blocks; for the states considered by the theorems below the
engine never writes file data into a block holding a live directory, so the
two views agree. -/

/-- `types.rs`, `struct Superblock` (all counters `u32`, timestamps `u64`,
modelled as `Nat`). -/
structure Superblock where
  magic : Nat
  block_size : Nat
  created_at : Nat
  modified_at : Option Nat
  last_mounted_at : Option Nat
  block_count : Nat
  inode_count : Nat
  free_blocks : Nat
  free_inodes : Nat
  groups : Nat
  data_blocks_per_group : Nat
  uid : Nat
  gid : Nat
  checksum : Nat
  deriving DecidableEq, Repr

/-- A directory-entry name (`OsString`), as its bytes. -/
abbrev Name := List Nat

/-- `BTreeMap::get` (first matching key; keys are unique in a `BTreeMap`). -/
def btGet : List (Name × Nat) → Name → Option Nat
  | [], _ => none
  | (k, v) :: rest, key => if k = key then some v else btGet rest key

/-- `BTreeMap::insert`: replace the value of an existing key or add the
entry.  (The `BTreeMap` additionally keeps keys ordered; none of the settled
claims depends on iteration order.) -/
def btInsert : List (Name × Nat) → Name → Nat → List (Name × Nat)
  | [], key, v => [(key, v)]
  | (k, w) :: rest, key, v =>
    if k = key then (key, v) :: rest else (k, w) :: btInsert rest key v

/-- `BTreeMap::remove`: the removed value (if any) and the remaining map. -/
def btRemove : List (Name × Nat) → Name → Option Nat × List (Name × Nat)
  | [], _ => (none, [])
  | (k, v) :: rest, key =>
    if k = key then (some v, rest)
    else
      let r := btRemove rest key
      (r.1, (k, v) :: r.2)

/-- `types.rs`, `struct Directory`: an ordered map from name to inode index,
plus a checksum. -/
structure Directory where
  entries : List (Name × Nat)
  checksum : Nat
  deriving DecidableEq, Repr

/-- `Directory::default()`. -/
def Directory.default : Directory := ⟨[], 0⟩

/-- `Directory::entry`: look the name up, `ENOENT` if absent. -/
def Directory.entry (dir : Directory) (name : Name) : Except FSErr Nat :=
  match btGet dir.entries name with
  | some index => .ok index
  | none => .error .ENOENT

/-- Pointwise update of a function-backed table. -/
def updF {α : Type} (f : Nat → α) (k : Nat) (v : α) : Nat → α :=
  fun x => if x = k then v else f x

/-- The engine state (`SimpleExt4FS` after `new`: superblock, groups, mmap). -/
structure FSState where
  sb : Superblock
  groups : List Group
  disk : Disk
  inodeTable : Nat → Inode
  dirTable : Nat → Directory

namespace FSState

/-- `FS::inode_offsets(index)`: `(group_index, bitmap_index)`.  (The source
computes `index - 1` on a `u64`; calls always have `index ≥ 1`.) -/
def inode_offsets (st : FSState) (index : Nat) : Nat × Nat :=
  let inodes_per_group := st.sb.data_blocks_per_group
  ((index - 1) / inodes_per_group, (index - 1) &&& (inodes_per_group - 1))

/-- `FS::data_block_offsets(index)`. -/
def data_block_offsets (st : FSState) (index : Nat) : Nat × Nat :=
  let dbpg := st.sb.data_blocks_per_group
  ((index - 1) / dbpg, (index - 1) &&& (dbpg - 1))

/-- `FS::find_inode`: check the bitmap of the inode's group (note: the source
passes the *global* index to `Group::has_inode`), then deserialise the
record.  `groups.get(..).unwrap()` panics out of range; deserialisation of a
record the engine previously serialised cannot fail (round-trip, cf. the
serialisation section), so the `EIO` branch does not arise in the model. -/
def find_inode (st : FSState) (index : Nat) : Except FSErr Inode :=
  match st.groups.get? (st.inode_offsets index).1 with
  | none => .error .PANIC
  | some g =>
    if ¬ g.has_inode index then .error .ENOENT
    else .ok (st.inodeTable index)

/-- `FS::save_inode`: serialise the record at `inode_seek_position(index)`.
(`serialize_into` recomputes the record's checksum field; no engine
operation reads it back, so the field is stored unchanged here.) -/
def save_inode (st : FSState) (inode : Inode) (index : Nat) : FSState :=
  { st with inodeTable := updF st.inodeTable index inode }

/-- `FS::save_dir(dir, index)`: re-save the inode `index` with a fresh
`modified_at`, then serialise the directory at
`data_block_seek_position(index)` — the position indexed by `index` itself,
not by the inode's `direct_blocks[0]`. -/
def save_dir (st : FSState) (now : SysTime) (dir : Directory) (index : Nat) :
    Except FSErr FSState :=
  match st.find_inode index with
  | .error e => .error e
  | .ok inode =>
    let st := st.save_inode (inode.update_modified_at now) index
    .ok { st with dirTable := updF st.dirTable index dir }

/-- `FS::find_dir_from_inode`: the inode must be a directory; its directory
record is read from the block `direct_blocks[0]` — after checking that
block's bit in the bitmap of the group derived from the *inode* index (as
the source does). -/
def find_dir_from_inode (st : FSState) (index : Nat) : Except FSErr Directory :=
  match st.find_inode index with
  | .error e => .error e
  | .ok inode =>
    if ¬ inode.is_dir then .error .ENOTDIR
    else
      let block := inode.find_direct_block 0
      match st.groups.get? (st.data_block_offsets index).1 with
      | none => .error .PANIC
      | some g =>
        if ¬ g.has_data_block block then .error .ENOENT
        else .ok (st.dirTable block)

/-- `FS::allocate_inode`: find the first group with a free inode, decrement
the superblock counter (the source subtracts on a `u32`; engine states keep
the counter positive), allocate in that group, return the global index. -/
def allocate_inode (st : FSState) : Option Nat × FSState :=
  match st.groups.findIdx? (fun g => decide (0 < g.free_inodes)) with
  | none => (none, st)
  | some group_index =>
    let st := { st with sb := { st.sb with free_inodes := st.sb.free_inodes - 1 } }
    match st.groups.get? group_index with
    | none => (none, st)
    | some g =>
      let r := g.allocate_inode
      let st := { st with groups := st.groups.set group_index r.2 }
      match r.1 with
      | none => (none, st)
      | some index => (some (index + group_index * st.sb.data_blocks_per_group), st)

/-- `FS::allocate_data_block`. -/
def allocate_data_block (st : FSState) : Option Nat × FSState :=
  match st.groups.findIdx? (fun g => decide (0 < g.free_data_blocks)) with
  | none => (none, st)
  | some group_index =>
    let st := { st with sb := { st.sb with free_blocks := st.sb.free_blocks - 1 } }
    match st.groups.get? group_index with
    | none => (none, st)
    | some g =>
      let r := g.allocate_data_block
      let st := { st with groups := st.groups.set group_index r.2 }
      match r.1 with
      | none => (none, st)
      | some index => (some (index + group_index * st.sb.data_blocks_per_group), st)

/-- Release one data block: clear bit `1 + bitmap_index` of the block's
group (`groups.get_mut(..).unwrap()` panics out of range; `List.set` is a
no-op there, and the theorems carry in-range hypotheses). -/
def release_one_data_block (st : FSState) (block : Nat) : FSState :=
  let go := st.data_block_offsets block
  match st.groups.get? go.1 with
  | none => st
  | some g => { st with groups := st.groups.set go.1 (g.release_data_block (1 + go.2)) }

/-- `FS::release_data_blocks`: release each block, then add the count to the
superblock's free counter. -/
def release_data_blocks (st : FSState) (blocks : List Nat) : FSState :=
  let st := blocks.foldl release_one_data_block st
  { st with sb := { st.sb with free_blocks := st.sb.free_blocks + blocks.length } }

/-- `FS::release_inode`: clear the bit (the source passes the *global* index
to `Group::release_inode`) and increment the free counter. -/
def release_inode (st : FSState) (index : Nat) : FSState :=
  let go := st.inode_offsets index
  let st :=
    match st.groups.get? go.1 with
    | none => st
    | some g => { st with groups := st.groups.set go.1 (g.release_inode index) }
  { st with sb := { st.sb with free_inodes := st.sb.free_inodes + 1 } }

/-- `FS::write_data` on the state: returns the updated state; the byte count
written is the data length. -/
def fs_write_data (st : FSState) (data : List Nat) (offset : Nat) (block_index : Nat) :
    FSState :=
  { st with disk := write_data st.disk data offset block_index }

/-- `FS::read_indirect_block`: the nonzero u32s among the
`block_size/4` slots of `block`, in slot order. -/
def read_indirect_block (st : FSState) (block : Nat) : List Nat :=
  ((List.range (st.sb.block_size / 4)).map
    (fun i => read_u32 st.disk i block)).filter (· ≠ 0)

/-- `FS::release_indirect_block`: release every nonzero pointer stored in
the block.  (The block itself is *not* released.) -/
def release_indirect_block (st : FSState) (block : Nat) : FSState :=
  st.release_data_blocks (st.read_indirect_block block)

/-- `FS::release_double_indirect_block`: release the nonzero pointers stored
in the block (the inner indirect blocks) and, for each, the nonzero leaf
pointers stored there.  (The double-indirect block itself is *not*
released.) -/
def release_double_indirect_block (st : FSState) (block : Nat) : FSState :=
  let indirect_blocks := st.read_indirect_block block
  let blocks := (indirect_blocks.filter (· ≠ 0)).flatMap st.read_indirect_block
  let st := st.release_data_blocks indirect_blocks
  st.release_data_blocks blocks

/-- `FS::save_indirect(pointer, block, index, pointers_per_block)`: store
`block` in slot `index` of the (possibly two-level) indirect chain rooted at
`pointer`.  The source's `assert_ne!(pointer, 0)` and the division by a zero
`pointers_per_block` are panics.  (The source's `map_err(EIO)` concerns store
I/O failures, which the total model store cannot produce.) -/
def save_indirect (st : FSState) (pointer block index P : Nat) :
    Except FSErr FSState :=
  if pointer = 0 then .error .PANIC
  else if _hP : P = 0 then .error .PANIC
  else
    let offset := index &&& (P - 1)
    if index < P then
      .ok (st.fs_write_data (u32_le_bytes block) (offset * 4) pointer)
    else
      let indirect_offset := index / P - 1
      let new_pointer := read_u32 st.disk indirect_offset pointer
      save_indirect st new_pointer block offset P
termination_by index
decreasing_by
  have h1 : index &&& (P - 1) ≤ P - 1 := Nat.and_le_right
  omega

/-- The tail of the double-indirect write path (`fs.rs` 276-309): find the
inner indirect block through the outer slot, installing and zeroing a fresh
one (plus a replacement data block) when the slot is empty, then store the
data block in the inner slot and return it with a full block of space. -/
def find_data_block_write_double (st : FSState) (inode : Inode)
    (block index P blk_size : Nat) : FSState × Inode × Except FSErr (Nat × Nat) :=
  let indirect_offset := (index - DIRECT_POINTERS) / P - 1
  let found := find_indirect st.disk P inode.double_indirect_block indirect_offset
  if found = 0 then
    match save_indirect st inode.double_indirect_block block indirect_offset P with
    | .error e => (st, inode, .error e)
    | .ok st =>
      let st := st.fs_write_data (List.replicate blk_size 0) 0 block
      let indirect_block := block
      match st.allocate_data_block with
      | (none, st) => (st, inode, .error .ENOSPC)
      | (some block, st) =>
        match save_indirect st indirect_block block
            ((index - DIRECT_POINTERS) &&& (P - 1)) P with
        | .error e => (st, inode, .error e)
        | .ok st => (st, inode, .ok (block, blk_size))
  else
    match save_indirect st found block
        ((index - DIRECT_POINTERS) &&& (P - 1)) P with
    | .error e => (st, inode, .error e)
    | .ok st => (st, inode, .ok (block, blk_size))

/-- `FS::find_data_block` in write mode (`read == false`), `fs.rs` 203-315:
as in read mode, map the offset; on a hole, allocate the data block and any
missing indirect blocks (zeroing fresh indirect blocks before linking), and
return `(block, blk_size)`.  State and inode are returned also on error,
since allocations performed before a failure are not unwound. -/
def find_data_block_write (st : FSState) (inode : Inode) (offset : Nat) :
    FSState × Inode × Except FSErr (Nat × Nat) :=
  let blk_size := st.sb.block_size
  if blk_size = 0 then (st, inode, .error .PANIC)
  else
    let index := offset / blk_size
    let P := blk_size / 4
    let block0 : Except FSErr Nat :=
      if index < DIRECT_POINTERS then .ok (inode.find_direct_block index)
      else if index < P + DIRECT_POINTERS then
        .ok (find_indirect st.disk P inode.indirect_block (index - DIRECT_POINTERS))
      else if index < P * P + P + DIRECT_POINTERS then
        .ok (find_indirect st.disk P inode.double_indirect_block (index - DIRECT_POINTERS))
      else .error .ENOSPC
    match block0 with
    | .error e => (st, inode, .error e)
    | .ok b =>
      if b ≠ 0 then (st, inode, .ok (b, ((index + 1) * blk_size - offset) % 2 ^ 32))
      else
        match st.allocate_data_block with
        | (none, st) => (st, inode, .error .ENOSPC)
        | (some block, st) =>
          -- each branch of the source's if/else-if chain falls through to the
          -- single final `Ok((block, blk_size))`; the model returns that
          -- tuple at the end of each branch
          if index < DIRECT_POINTERS then
            match inode.add_block block index with
            | none => (st, inode, .error .ENOSPC)
            | some inode => (st, inode, .ok (block, blk_size))
          else if index < P + DIRECT_POINTERS then
            -- the source conditionally installs a fresh indirect block, then
            -- falls through to one `save_indirect`; the model repeats that
            -- shared tail in both arms
            if inode.indirect_block = 0 then
              let inode := { inode with indirect_block := block }
              let st := st.fs_write_data (List.replicate blk_size 0) 0 block
              match st.allocate_data_block with
              | (none, st) => (st, inode, .error .ENOSPC)
              | (some block, st) =>
                match save_indirect st inode.indirect_block block (index - DIRECT_POINTERS) P with
                | .error e => (st, inode, .error e)
                | .ok st => (st, inode, .ok (block, blk_size))
            else
              match save_indirect st inode.indirect_block block (index - DIRECT_POINTERS) P with
              | .error e => (st, inode, .error e)
              | .ok st => (st, inode, .ok (block, blk_size))
          else if index < P * P + P + DIRECT_POINTERS then
            -- likewise: the conditional installation of a fresh
            -- double-indirect block falls through to a shared tail, repeated
            -- here in both arms
            if inode.double_indirect_block = 0 then
              let inode := { inode with double_indirect_block := block }
              let st := st.fs_write_data (List.replicate blk_size 0) 0 block
              match st.allocate_data_block with
              | (none, st) => (st, inode, .error .ENOSPC)
              | (some block, st) =>
                find_data_block_write_double st inode block index P blk_size
            else
              find_data_block_write_double st inode block index P blk_size
          else (st, inode, .error .ENOSPC)

/-- The loop of `Filesystem::write` (`fs.rs` 698-730): map the current
offset (write mode), write `min(remaining, space_in_block)` bytes, advance.
`fuel` bounds the number of iterations so that the recursion is structural
(and hence evaluates); every iteration writes at least one byte when
`block_size ≥ 1`, so `write_op`'s `fuel = data.length` is never exhausted.
When a mapped block offers no space (only possible for `block_size = 0`,
which already panics inside the mapping) the source would loop forever;
the model returns `PANIC` there to stay total. -/
def write_loop (st : FSState) (inode : Inode) (data : List Nat)
    (fuel total_wrote current_offset : Nat) :
    FSState × Except FSErr (Inode × Nat) :=
  if total_wrote = data.length then (st, .ok (inode, total_wrote))
  else
    match fuel with
    | 0 => (st, .error .PANIC)
    | fuel + 1 =>
      let blk_size := st.sb.block_size
      let direct_block_index := current_offset / blk_size
      match find_data_block_write st inode current_offset with
      | (st, _, .error e) => (st, .error e)
      | (st, inode, .ok (block_index, space_left)) =>
        let max_write_len := min data.length space_left
        let offset_in_block :=
          if total_wrote ≠ 0 then 0
          else current_offset - direct_block_index * blk_size
        let chunk := (data.take (min data.length (max_write_len + total_wrote))).drop total_wrote
        let st := st.fs_write_data chunk offset_in_block block_index
        let wrote := chunk.length
        if wrote = 0 then (st, .error .PANIC)
        else write_loop st inode data fuel (total_wrote + wrote) (current_offset + wrote)

/-- `Filesystem::write` (`fs.rs` 669-747): load the inode, run the write
loop, refresh `modified_at`/`changed_at`, and adjust the size —
`adjust_size(total_wrote)` when the write started strictly below the old
size (`overwrite`), `increment_size(total_wrote)` otherwise — then persist
the inode and reply with the byte count. -/
def write_op (st : FSState) (now : SysTime) (ino : Nat) (offset : Nat)
    (data : List Nat) : FSState × Except FSErr Nat :=
  match st.find_inode ino with
  | .error e => (st, .error e)
  | .ok inode =>
    let overwrite := decide (offset < inode.size)
    match write_loop st inode data data.length 0 offset with
    | (st, .error e) => (st, .error e)
    | (st, .ok (inode, total_wrote)) =>
      let inode := inode.update_modified_at now
      let inode :=
        if overwrite then inode.adjust_size total_wrote
        else inode.increment_size total_wrote
      let st := st.save_inode inode ino
      (st, .ok total_wrote)

/-- The release sequence of `unlink` (`fs.rs` 925-936): the target's nonzero
direct blocks; then, when nonzero, the pointers held in the indirect block;
then, when nonzero, the double-indirect chain. -/
def unlink_release_stage (st : FSState) (inode : Inode) : FSState :=
  let st := st.release_data_blocks inode.direct_blocks_nonzero
  let st :=
    if inode.indirect_block ≠ 0 then st.release_indirect_block inode.indirect_block
    else st
  if inode.double_indirect_block ≠ 0 then
    st.release_double_indirect_block inode.double_indirect_block
  else st

/-- `Filesystem::unlink` (`fs.rs` 917-951): read the parent directory,
remove the entry (`ENOENT` if absent), release the target's nonzero direct
blocks, the pointers stored in its indirect block (if nonzero) and, for a
nonzero double-indirect block, the inner pointers and their leaves; persist
the parent; release the inode. -/
def unlink_op (st : FSState) (now : SysTime) (parent : Nat) (name : Name) :
    FSState × Except FSErr Unit :=
  match st.find_dir_from_inode parent with
  | .error e => (st, .error e)
  | .ok parent_dir =>
    match btRemove parent_dir.entries name with
    | (none, _) => (st, .error .ENOENT)
    | (some index, entries') =>
      let parent_dir := { parent_dir with entries := entries' }
      match st.find_inode index with
      | .error e => (st, .error e)
      | .ok inode =>
        let st := st.unlink_release_stage inode
        match st.save_dir now parent_dir parent with
        | .error _ => (st, .error FSErr.EIO)
        | .ok st => (st.release_inode index, .ok ())

/-- `Filesystem::create` (`fs.rs` 614-667): allocate an inode first
(`ENOSPC` when none), build the fresh inode record, then resolve the parent
directory; on success insert the entry, persist the new inode and the
parent, and reply with the created inode's attributes (its index here).  A
parent-resolution failure replies with that error — the allocated inode is
not rolled back. -/
def create_op (st : FSState) (now : SysTime) (parent : Nat) (name : Name)
    (mode : Nat) : FSState × Except FSErr Nat :=
  match st.allocate_inode with
  | (none, st) => (st, .error .ENOSPC)
  | (some index, st) =>
    let inode :=
      { Inode.new st.sb.block_size now with
        mode := mode
        user_id := st.sb.uid
        group_id := st.sb.gid }
    match st.find_dir_from_inode parent with
    | .error e => (st, .error e)
    | .ok parent_dir =>
      let parent_dir := { parent_dir with entries := btInsert parent_dir.entries name index }
      let st := st.save_inode inode index
      match st.save_dir now parent_dir parent with
      | .error _ => (st, .error FSErr.EIO)
      | .ok st =>
        match st.find_inode index with
        | .error e => (st, .error e)
        | .ok _ => (st, .ok index)

/-- `Filesystem::lookup` (`fs.rs` 536-550): parent directory, entry, target
inode; the reply's inode index on success. -/
def lookup_op (st : FSState) (parent : Nat) (name : Name) : Except FSErr Nat :=
  match st.find_dir_from_inode parent with
  | .error e => .error e
  | .ok dir =>
    match dir.entry name with
    | .error e => .error e
    | .ok index =>
      match st.find_inode index with
      | .error e => .error e
      | .ok _ => .ok index

/-- The bitmap bit that `release_data_blocks` clears for block `b`: position
`bitmap_index` (i.e. `(b-1) & (dbpg-1)`) of the data bitmap of group
`(b-1)/dbpg`.  `false` when the group does not exist. -/
def dataBit (st : FSState) (b : Nat) : Bool :=
  (st.groups.getD ((b - 1) / st.sb.data_blocks_per_group)
      ⟨[], [], none, none⟩).data_bitmap.getD
    ((b - 1) &&& (st.sb.data_blocks_per_group - 1)) false

/-- The bit `find_inode` consults and `release_inode` clears for inode `i`:
the *global* position `i-1` of the inode bitmap of group `(i-1)/dbpg`. -/
def inodeBit (st : FSState) (i : Nat) : Bool :=
  (st.groups.getD ((i - 1) / st.sb.data_blocks_per_group)
      ⟨[], [], none, none⟩).inode_bitmap.getD (i - 1) false

end FSState

/-- All data-block indices `unlink` passes to `release_data_blocks` for a
target inode, in release order: the nonzero direct blocks; the nonzero
pointers stored in the indirect block, when nonzero; and for a nonzero
double-indirect block, the nonzero inner pointers followed by the nonzero
leaf pointers stored in each. -/
def unlinkReleased (st : FSState) (inode : Inode) : List Nat :=
  inode.direct_blocks_nonzero ++
    (if inode.indirect_block ≠ 0 then st.read_indirect_block inode.indirect_block else []) ++
    (if inode.double_indirect_block ≠ 0 then
      st.read_indirect_block inode.double_indirect_block ++
        ((st.read_indirect_block inode.double_indirect_block).filter (· ≠ 0)).flatMap
          st.read_indirect_block
    else [])

/-- The reference block-mapping table of the claim, written from the spec's
words (§4.5.3): with `li = o div BS` and `P = BS/4`, the physical block is
`direct_blocks[li]` for `li ∈ [0,12)`; slot `li−12` of the block at
`indirect_block` for `li ∈ [12,12+P)`; for `li ∈ [12+P,12+P+P²)` the pointer
at outer slot `⌊(li−12−P)/P⌋` of the block at `double_indirect_block`
followed by inner slot `(li−12−P) mod P`; `ENOSPC` beyond; `EINVAL` when the
pointer found at any level is 0; on success the second component is
`(li+1)·BS − o`. -/
def refBlockMap (d : Disk) (BS : Nat) (inode : Inode) (o : Nat) :
    Except FSErr (Nat × Nat) :=
  let li := o / BS
  let P := BS / 4
  let checkPtr : Nat → Except FSErr (Nat × Nat) := fun b =>
    if b = 0 then .error .EINVAL else .ok (b, (li + 1) * BS - o)
  if li < 12 then checkPtr (inode.direct_blocks.getD li 0)
  else if li < 12 + P then
    if inode.indirect_block = 0 then .error .EINVAL
    else checkPtr (read_u32 d (li - 12) inode.indirect_block)
  else if li < 12 + P + P * P then
    if inode.double_indirect_block = 0 then .error .EINVAL
    else
      let outer := read_u32 d ((li - 12 - P) / P) inode.double_indirect_block
      if outer = 0 then .error .EINVAL
      else checkPtr (read_u32 d ((li - 12 - P) % P) outer)
  else .error .ENOSPC

/-! ### Concrete instances used by witnesses and counterexamples -/

/-- A concrete data region for the C1 witness. -/
def c1Disk : Disk := fun b o => (b + o) % 256

/-- A concrete inode for the C1 witness. -/
def c1Inode : Inode :=
  { Inode.new 16 ⟨0, 0⟩ with
    direct_blocks := [1, 2, 3, 4, 5, 6, 7, 8, 9, 10, 11, 12]
    indirect_block := 13
    double_indirect_block := 14 }

/-- A one-group engine state with block size 8: data blocks 1 and 2 in use,
inodes 2 and 3 allocated; inode 2 holds a 10-byte file over blocks 1 and 2;
inode 3 is empty. -/
def exState : FSState where
  sb :=
    { magic := 0x64627a
      block_size := 8
      created_at := 0
      modified_at := none
      last_mounted_at := none
      block_count := 64
      inode_count := 64
      free_blocks := 62
      free_inodes := 62
      groups := 1
      data_blocks_per_group := 64
      uid := 0
      gid := 0
      checksum := 0 }
  groups :=
    [Group.new (((List.replicate 64 false).set 0 true).set 1 true)
      (((List.replicate 64 false).set 1 true).set 2 true)]
  disk := fun _ _ => 0
  inodeTable := fun i =>
    if i = 2 then
      { Inode.new 8 ⟨0, 0⟩ with
        size := 10
        direct_blocks := [1, 2, 0, 0, 0, 0, 0, 0, 0, 0, 0, 0] }
    else Inode.new 8 ⟨0, 0⟩
  dirTable := fun _ => Directory.default

/-- A one-group engine state with block size 8 for the unlink scenario: the
root directory (inode 1, data block 1) holds one entry "a" (inode 2); the
file's inode has no direct blocks but `indirect_block = 3`, and block 3
stores the single leaf pointer 4.  Data blocks 1, 3, 4 and inodes 1, 2 are
marked in the bitmaps. -/
def c3State : FSState where
  sb :=
    { magic := 0x64627a
      block_size := 8
      created_at := 0
      modified_at := none
      last_mounted_at := none
      block_count := 64
      inode_count := 64
      free_blocks := 61
      free_inodes := 62
      groups := 1
      data_blocks_per_group := 64
      uid := 0
      gid := 0
      checksum := 0 }
  groups :=
    [Group.new ((((List.replicate 64 false).set 0 true).set 2 true).set 3 true)
      (((List.replicate 64 false).set 0 true).set 1 true)]
  disk := fun b o => if b = 3 ∧ o = 0 then 4 else 0
  inodeTable := fun i =>
    if i = 1 then
      { Inode.new 8 ⟨0, 0⟩ with
        mode := Inode.S_IFDIR
        hard_links := 2
        direct_blocks := [1, 0, 0, 0, 0, 0, 0, 0, 0, 0, 0, 0] }
    else if i = 2 then
      { Inode.new 8 ⟨0, 0⟩ with size := 4, indirect_block := 3 }
    else Inode.new 8 ⟨0, 0⟩
  dirTable := fun b =>
    if b = 1 then ⟨[([97], 2)], 0⟩ else Directory.default

/-! ## The external merge sorter (`sort.rs`, `ext_arr.rs`) -/

/-- Errors of the sorter model: `invalidData` is the `InvalidData` error
`ExtArr::read` produces when the bytes read do not cast to `&mut [T]`;
`heapPanic` marks the `[0]` index on an empty first read in `merge_chunks`;
`fuelOut` marks loop iterations beyond the model's fuel (unreachable in the
settled statements). -/
inductive SortErr where
  | invalidData
  | heapPanic
  | fuelOut
  deriving Repr, DecidableEq

/-- `ExtArr::read` into a `B`-byte buffer, element size `s`: the stream
supplies `min B (remaining·s)` bytes, and `bytemuck::try_cast_slice_mut`
fails unless that count is a multiple of `s`. -/
def readChunk (s B : Nat) (rem : List Nat) : Except SortErr (List Nat) :=
  let bytes := min B (rem.length * s)
  if bytes % s = 0 then .ok (rem.take (bytes / s)) else .error .invalidData

/-- The `sort_chunks` loop (`sort.rs` 110-141): read a buffer-full, stop on
an empty read, sort it (`sort_unstable`, modelled by `mergeSort`) and emit
it as a run; `fuel` bounds the iterations. -/
def sortChunksLoop (s B : Nat) (fuel : Nat) (rem : List Nat) :
    Except SortErr (List (List Nat)) :=
  match readChunk s B rem with
  | .error e => .error e
  | .ok chunk =>
    if chunk.isEmpty then .ok []
    else
      match fuel with
      | 0 => .error .fuelOut
      | fuel + 1 =>
        match sortChunksLoop s B fuel (rem.drop chunk.length) with
        | .error e => .error e
        | .ok rest => .ok (chunk.mergeSort (fun a b => decide (a ≤ b)) :: rest)

/-- The heap seeding of `merge_chunks` (`sort.rs` 159-163): one element is
read from every run and indexed with `[0]` — a panic if a run were empty. -/
def initHeap : List (List Nat) → Except SortErr (List (Nat × List Nat))
  | [] => .ok []
  | [] :: _ => .error .heapPanic
  | (x :: xs) :: rest =>
    match initHeap rest with
    | .error e => .error e
    | .ok h => .ok ((x, xs) :: h)

/-- `BinaryHeap::pop` under `ExtItem`'s reversed `Ord`: an entry with the
least `item` leaves the heap first. -/
def heapPop :
    List (Nat × List Nat) → Option ((Nat × List Nat) × List (Nat × List Nat))
  | [] => none
  | e :: rest =>
    match heapPop rest with
    | none => some (e, [])
    | some (m, rest') =>
      if e.1 ≤ m.1 then some (e, rest) else some (m, e :: rest')

/-- The `merge_chunks` pop/write/refill loop (`sort.rs` 165-174). -/
def mergeLoop (fuel : Nat) (heap : List (Nat × List Nat)) (acc : List Nat) :
    Except SortErr (List Nat) :=
  match heapPop heap with
  | none => .ok acc
  | some ((x, src), heap') =>
    match fuel with
    | 0 => .error .fuelOut
    | fuel + 1 =>
      match src with
      | [] => mergeLoop fuel heap' (acc ++ [x])
      | y :: ys => mergeLoop fuel ((y, ys) :: heap') (acc ++ [x])

/-- `ExtSorter::sort` (`sort.rs` 48-57): split into sorted runs, rewind,
merge; the value is the array's final contents. -/
def extSorterSort (s B : Nat) (S : List Nat) : Except SortErr (List Nat) :=
  match sortChunksLoop s B S.length S with
  | .error e => .error e
  | .ok chunks =>
    match initHeap chunks with
    | .error e => .error e
    | .ok heap => mergeLoop S.length heap []

/-- All elements held by a heap, per entry head-then-rest. -/
def heapElems (h : List (Nat × List Nat)) : List Nat :=
  (h.map (fun e => e.1 :: e.2)).flatten


/-! ## Serialisation: `bincode` v1 (fixed-width ints, little endian) and
`crc32fast` (`types.rs`, `mod.rs::calculate_checksum`) -/

/-- Deserialisation errors: `eof` is bincode running out of bytes, `badTag`
an invalid `Option`/variant tag, `badChecksum` the wrappers' verification
failure (`anyhow!("... checksum verification failed")`). -/
inductive SerErr where
  | eof
  | badTag
  | badChecksum
  deriving Repr, DecidableEq

def u16le (n : Nat) : List Nat := [n % 256, n / 256 % 256]

def u32le (n : Nat) : List Nat :=
  [n % 256, n / 256 % 256, n / 65536 % 256, n / 16777216 % 256]

def u64le (n : Nat) : List Nat :=
  u32le (n % 4294967296) ++ u32le (n / 4294967296 % 4294967296)

/-- `Option<u64>`: a one-byte tag, then the payload. -/
def optU64le : Option Nat → List Nat
  | none => [0]
  | some v => 1 :: u64le v

/-- `SystemTime` as serde emits it: seconds (`u64`) then subsecond
nanoseconds (`u32`). -/
def sysTimeLe (t : SysTime) : List Nat := u64le t.secs ++ u32le t.nanos

/-- `OsString`: newtype variant `Unix` (index 0 as `u32`) holding its bytes
(`u64` length, then the raw bytes). -/
def nameLe (nm : Name) : List Nat := u32le 0 ++ u64le nm.length ++ nm

def entriesLe : List (Name × Nat) → List Nat
  | [] => []
  | (k, v) :: rest => nameLe k ++ u32le v ++ entriesLe rest

def blocksLe : List Nat → List Nat
  | [] => []
  | b :: rest => u32le b ++ blocksLe rest

/-- `bincode::serialize` of a `Superblock`: the fields in declaration
order. -/
def sbEncode (s : Superblock) : List Nat :=
  u32le s.magic ++ u32le s.block_size ++ u64le s.created_at ++
    optU64le s.modified_at ++ optU64le s.last_mounted_at ++
    u32le s.block_count ++ u32le s.inode_count ++ u32le s.free_blocks ++
    u32le s.free_inodes ++ u32le s.groups ++ u32le s.data_blocks_per_group ++
    u32le s.uid ++ u32le s.gid ++ u32le s.checksum

/-- `bincode::serialize` of an `Inode` (`[u32; 12]` is emitted with no
length prefix). -/
def inodeEncode (i : Inode) : List Nat :=
  u32le i.mode ++ u16le i.hard_links ++ u32le i.user_id ++
    u32le i.group_id ++ u32le i.block_count ++ u64le i.size ++
    sysTimeLe i.created_at ++ sysTimeLe i.accessed_at ++
    sysTimeLe i.modified_at ++ sysTimeLe i.changed_at ++
    blocksLe i.direct_blocks ++ u32le i.indirect_block ++
    u32le i.double_indirect_block ++ u32le i.checksum ++ u32le i.block_size

/-- `bincode::serialize` of a `Directory`: the map as a `u64` length and the
key-sorted entries, then the checksum. -/
def dirEncode (d : Directory) : List Nat :=
  u64le d.entries.length ++ entriesLe d.entries ++ u32le d.checksum

/-- One bit step of CRC-32/ISO-HDLC (reflected polynomial `0xEDB88320`). -/
def crc32Round (c : Nat) : Nat :=
  if c % 2 = 1 then (c / 2) ^^^ 0xEDB88320 else c / 2

def crc32Byte (c b : Nat) : Nat :=
  crc32Round (crc32Round (crc32Round (crc32Round (crc32Round (crc32Round
    (crc32Round (crc32Round (c ^^^ b))))))))

/-- `crc32fast::Hasher`: init `0xFFFFFFFF`, bytewise rounds, final
complement. -/
def crc32 (bytes : List Nat) : Nat :=
  0xFFFFFFFF ^^^ bytes.foldl crc32Byte 0xFFFFFFFF

/-- `Superblock::serialize`: first `self.checksum()` (zero the field, store
`calculate_checksum`), then encode. -/
def sbSerialize (s : Superblock) : List Nat :=
  sbEncode { s with checksum := crc32 (sbEncode { s with checksum := 0 }) }

def inodeSerialize (i : Inode) : List Nat :=
  inodeEncode { i with checksum := crc32 (inodeEncode { i with checksum := 0 }) }

def dirSerialize (d : Directory) : List Nat :=
  dirEncode { d with checksum := crc32 (dirEncode { d with checksum := 0 }) }

def dU8 : List Nat → Except SerErr (Nat × List Nat)
  | [] => .error .eof
  | b :: rest => .ok (b, rest)

def dU16 : List Nat → Except SerErr (Nat × List Nat)
  | b0 :: b1 :: rest => .ok (b0 + 256 * b1, rest)
  | _ => .error .eof

def dU32 : List Nat → Except SerErr (Nat × List Nat)
  | b0 :: b1 :: b2 :: b3 :: rest =>
    .ok (b0 + 256 * b1 + 65536 * b2 + 16777216 * b3, rest)
  | _ => .error .eof

def dU64 (bs : List Nat) : Except SerErr (Nat × List Nat) :=
  match dU32 bs with
  | .error e => .error e
  | .ok (lo, bs) =>
    match dU32 bs with
    | .error e => .error e
    | .ok (hi, bs) => .ok (lo + 4294967296 * hi, bs)

def dOptU64 (bs : List Nat) : Except SerErr (Option Nat × List Nat) :=
  match dU8 bs with
  | .error e => .error e
  | .ok (0, bs) => .ok (none, bs)
  | .ok (1, bs) =>
    match dU64 bs with
    | .error e => .error e
    | .ok (v, bs) => .ok (some v, bs)
  | .ok _ => .error .badTag

def dST (bs : List Nat) : Except SerErr (SysTime × List Nat) :=
  match dU64 bs with
  | .error e => .error e
  | .ok (secs, bs) =>
    match dU32 bs with
    | .error e => .error e
    | .ok (nanos, bs) => .ok (⟨secs, nanos⟩, bs)

def dBytes (n : Nat) (bs : List Nat) : Except SerErr (List Nat × List Nat) :=
  if n ≤ bs.length then .ok (bs.take n, bs.drop n) else .error .eof

def dName (bs : List Nat) : Except SerErr (Name × List Nat) :=
  match dU32 bs with
  | .error e => .error e
  | .ok (0, bs) =>
    match dU64 bs with
    | .error e => .error e
    | .ok (len, bs) =>
      match dBytes len bs with
      | .error e => .error e
      | .ok (nm, bs) => .ok (nm, bs)
  | .ok _ => .error .badTag

def dEntries : Nat → List Nat → Except SerErr (List (Name × Nat) × List Nat)
  | 0, bs => .ok ([], bs)
  | n + 1, bs =>
    match dName bs with
    | .error e => .error e
    | .ok (k, bs) =>
      match dU32 bs with
      | .error e => .error e
      | .ok (v, bs) =>
        match dEntries n bs with
        | .error e => .error e
        | .ok (rest, bs) => .ok ((k, v) :: rest, bs)

def dBlocks : Nat → List Nat → Except SerErr (List Nat × List Nat)
  | 0, bs => .ok ([], bs)
  | n + 1, bs =>
    match dU32 bs with
    | .error e => .error e
    | .ok (b, bs) =>
      match dBlocks n bs with
      | .error e => .error e
      | .ok (rest, bs) => .ok (b :: rest, bs)


def sbDecode (bs : List Nat) : Except SerErr (Superblock × List Nat) :=
  match dU32 bs with
  | .error e => .error e
  | .ok (magic, bs) =>
  match dU32 bs with
  | .error e => .error e
  | .ok (block_size, bs) =>
  match dU64 bs with
  | .error e => .error e
  | .ok (created_at, bs) =>
  match dOptU64 bs with
  | .error e => .error e
  | .ok (modified_at, bs) =>
  match dOptU64 bs with
  | .error e => .error e
  | .ok (last_mounted_at, bs) =>
  match dU32 bs with
  | .error e => .error e
  | .ok (block_count, bs) =>
  match dU32 bs with
  | .error e => .error e
  | .ok (inode_count, bs) =>
  match dU32 bs with
  | .error e => .error e
  | .ok (free_blocks, bs) =>
  match dU32 bs with
  | .error e => .error e
  | .ok (free_inodes, bs) =>
  match dU32 bs with
  | .error e => .error e
  | .ok (groups, bs) =>
  match dU32 bs with
  | .error e => .error e
  | .ok (data_blocks_per_group, bs) =>
  match dU32 bs with
  | .error e => .error e
  | .ok (uid, bs) =>
  match dU32 bs with
  | .error e => .error e
  | .ok (gid, bs) =>
  match dU32 bs with
  | .error e => .error e
  | .ok (checksum, bs) =>
    .ok (⟨magic, block_size, created_at, modified_at, last_mounted_at,
      block_count, inode_count, free_blocks, free_inodes, groups,
      data_blocks_per_group, uid, gid, checksum⟩, bs)

def inodeDecode (bs : List Nat) : Except SerErr (Inode × List Nat) :=
  match dU32 bs with
  | .error e => .error e
  | .ok (mode, bs) =>
  match dU16 bs with
  | .error e => .error e
  | .ok (hard_links, bs) =>
  match dU32 bs with
  | .error e => .error e
  | .ok (user_id, bs) =>
  match dU32 bs with
  | .error e => .error e
  | .ok (group_id, bs) =>
  match dU32 bs with
  | .error e => .error e
  | .ok (block_count, bs) =>
  match dU64 bs with
  | .error e => .error e
  | .ok (size, bs) =>
  match dST bs with
  | .error e => .error e
  | .ok (created_at, bs) =>
  match dST bs with
  | .error e => .error e
  | .ok (accessed_at, bs) =>
  match dST bs with
  | .error e => .error e
  | .ok (modified_at, bs) =>
  match dST bs with
  | .error e => .error e
  | .ok (changed_at, bs) =>
  match dBlocks 12 bs with
  | .error e => .error e
  | .ok (direct_blocks, bs) =>
  match dU32 bs with
  | .error e => .error e
  | .ok (indirect_block, bs) =>
  match dU32 bs with
  | .error e => .error e
  | .ok (double_indirect_block, bs) =>
  match dU32 bs with
  | .error e => .error e
  | .ok (checksum, bs) =>
  match dU32 bs with
  | .error e => .error e
  | .ok (block_size, bs) =>
    .ok (⟨mode, hard_links, user_id, group_id, block_count, size,
      created_at, accessed_at, modified_at, changed_at, direct_blocks,
      indirect_block, double_indirect_block, checksum, block_size⟩, bs)

def dirDecode (bs : List Nat) : Except SerErr (Directory × List Nat) :=
  match dU64 bs with
  | .error e => .error e
  | .ok (len, bs) =>
  match dEntries len bs with
  | .error e => .error e
  | .ok (entries, bs) =>
  match dU32 bs with
  | .error e => .error e
  | .ok (checksum, bs) => .ok (⟨entries, checksum⟩, bs)

/-- `Superblock::deserialize_from`: decode, then `verify_checksum` (compare
the stored field against `calculate_checksum` of the record with the field
zeroed). -/
def sbDeserialize (bs : List Nat) : Except SerErr Superblock :=
  match sbDecode bs with
  | .error e => .error e
  | .ok (s, _) =>
    if s.checksum = crc32 (sbEncode { s with checksum := 0 }) then .ok s
    else .error .badChecksum

def inodeDeserialize (bs : List Nat) : Except SerErr Inode :=
  match inodeDecode bs with
  | .error e => .error e
  | .ok (i, _) =>
    if i.checksum = crc32 (inodeEncode { i with checksum := 0 }) then .ok i
    else .error .badChecksum

def dirDeserialize (bs : List Nat) : Except SerErr Directory :=
  match dirDecode bs with
  | .error e => .error e
  | .ok (d, _) =>
    if d.checksum = crc32 (dirEncode { d with checksum := 0 }) then .ok d
    else .error .badChecksum

/-- The Rust field types' bounds for a `Superblock`. -/
def sbWf (s : Superblock) : Prop :=
  s.magic < 4294967296 ∧ s.block_size < 4294967296 ∧
    s.created_at < 18446744073709551616 ∧
    s.modified_at.getD 0 < 18446744073709551616 ∧
    s.last_mounted_at.getD 0 < 18446744073709551616 ∧
    s.block_count < 4294967296 ∧ s.inode_count < 4294967296 ∧
    s.free_blocks < 4294967296 ∧ s.free_inodes < 4294967296 ∧
    s.groups < 4294967296 ∧ s.data_blocks_per_group < 4294967296 ∧
    s.uid < 4294967296 ∧ s.gid < 4294967296 ∧ s.checksum < 4294967296

def stWf (t : SysTime) : Prop :=
  t.secs < 18446744073709551616 ∧ t.nanos < 4294967296

/-- The Rust field types' bounds for an `Inode` (and the `[u32; 12]`
shape). -/
def inodeWf (i : Inode) : Prop :=
  i.mode < 4294967296 ∧ i.hard_links < 65536 ∧ i.user_id < 4294967296 ∧
    i.group_id < 4294967296 ∧ i.block_count < 4294967296 ∧
    i.size < 18446744073709551616 ∧ stWf i.created_at ∧
    stWf i.accessed_at ∧ stWf i.modified_at ∧ stWf i.changed_at ∧
    i.direct_blocks.length = 12 ∧ (∀ b ∈ i.direct_blocks, b < 4294967296) ∧
    i.indirect_block < 4294967296 ∧ i.double_indirect_block < 4294967296 ∧
    i.checksum < 4294967296 ∧ i.block_size < 4294967296

/-- The Rust field types' bounds for a `Directory`. -/
def dirWf (d : Directory) : Prop :=
  d.entries.length < 18446744073709551616 ∧
    (∀ e ∈ d.entries, e.2 < 4294967296 ∧
      e.1.length < 18446744073709551616 ∧ ∀ b ∈ e.1, b < 256) ∧
    d.checksum < 4294967296

/-- A concrete inode for the serialisation statements (checksum still 0). -/
def c7Inode : Inode where
  mode := 33188
  hard_links := 1
  user_id := 1000
  group_id := 1000
  block_count := 1
  size := 0
  created_at := ⟨1700000000, 5⟩
  accessed_at := ⟨1700000000, 5⟩
  modified_at := ⟨1700000001, 6⟩
  changed_at := ⟨1700000001, 6⟩
  direct_blocks := [1, 2, 0, 0, 0, 0, 0, 0, 0, 0, 0, 0]
  indirect_block := 0
  double_indirect_block := 0
  checksum := 0
  block_size := 512


namespace GroupFacts

theorem position_false_cons_false (rest : List Bool) :
    Group.position_false (false :: rest) = some 0 := rfl

theorem position_false_cons_true (rest : List Bool) :
    Group.position_false (true :: rest) = (Group.position_false rest).map (· + 1) := rfl

theorem position_false_spec (bm : List Bool) (p : Nat) :
    Group.position_false bm = some p ↔
      bm.getD p true = false ∧ ∀ j, j < p → bm.getD j true = true := by
  induction bm generalizing p with
  | nil => simp [Group.position_false]
  | cons b rest ih =>
    cases b with
    | false =>
      rw [position_false_cons_false]
      constructor
      · rintro h
        injection h with h
        subst h
        exact ⟨List.getD_cons_zero, fun j hj => absurd hj (Nat.not_lt_zero j)⟩
      · rintro ⟨h0, hprev⟩
        rcases Nat.eq_zero_or_pos p with rfl | hpos
        · rfl
        · have := hprev 0 hpos
          rw [List.getD_cons_zero] at this
          cases this
    | true =>
      rw [position_false_cons_true]
      constructor
      · intro h
        obtain ⟨q, hq, rfl⟩ := Option.map_eq_some'.mp h
        have hspec := (ih q).mp hq
        refine ⟨by simpa [List.getD_cons_succ] using hspec.1, ?_⟩
        intro j hj
        cases j with
        | zero => exact List.getD_cons_zero
        | succ k =>
          have := hspec.2 k (by omega)
          simpa [List.getD_cons_succ] using this
      · rintro ⟨h0, hprev⟩
        cases p with
        | zero => rw [List.getD_cons_zero] at h0; cases h0
        | succ n =>
          have hn : Group.position_false rest = some n := by
            refine (ih n).mpr ⟨by simpa [List.getD_cons_succ] using h0, ?_⟩
            intro j hj
            have := hprev (j + 1) (by omega)
            simpa [List.getD_cons_succ] using this
          simp [hn]

theorem position_false_none (bm : List Bool) :
    Group.position_false bm = none ↔ bm.count false = 0 := by
  induction bm with
  | nil => simp [Group.position_false]
  | cons b rest ih =>
    cases b <;> simp [Group.position_false, ih, List.count_cons]

theorem new_cacheAccurate (db ib : List Bool) :
    (Group.new db ib).cacheAccurate := by
  constructor <;> rfl

theorem allocate_inode_cacheAccurate (g : Group) (h : g.cacheAccurate) :
    g.allocate_inode.2.cacheAccurate := by
  unfold Group.allocate_inode
  cases hn : g.next_inode with
  | none => exact h
  | some i =>
    refine ⟨rfl, ?_⟩
    simpa [Group.add_inode, Group.next_free_data_block] using h.2

theorem allocate_data_block_cacheAccurate (g : Group) (h : g.cacheAccurate) :
    g.allocate_data_block.2.cacheAccurate := by
  unfold Group.allocate_data_block
  cases hn : g.next_data_block with
  | none => exact h
  | some i =>
    refine ⟨?_, rfl⟩
    simpa [Group.add_data_block, Group.next_free_inode] using h.1

theorem release_inode_cacheAccurate (g : Group) (i : Nat) (h : g.cacheAccurate) :
    (g.release_inode i).cacheAccurate := by
  refine ⟨rfl, ?_⟩
  simpa [Group.release_inode, Group.next_free_data_block] using h.2

theorem release_data_block_cacheAccurate (g : Group) (i : Nat) (h : g.cacheAccurate) :
    (g.release_data_block i).cacheAccurate := by
  refine ⟨?_, rfl⟩
  simpa [Group.release_data_block, Group.next_free_inode] using h.1

theorem applyOps_cacheAccurate (g : Group) (ops : List GroupOp)
    (h : g.cacheAccurate) : (g.applyOps ops).cacheAccurate := by
  induction ops generalizing g with
  | nil => exact h
  | cons op rest ih =>
    refine ih _ ?_
    cases op with
    | allocI => exact allocate_inode_cacheAccurate g h
    | allocD => exact allocate_data_block_cacheAccurate g h
    | relI i => exact release_inode_cacheAccurate g i h
    | relD i => exact release_data_block_cacheAccurate g i h

theorem allocate_inode_some (g : Group) (hacc : g.cacheAccurate)
    (i : Nat) (g' : Group) (h : g.allocate_inode = (some i, g')) :
    isSmallestFree g.inode_bitmap i ∧ g'.has_inode i = true := by
  unfold Group.allocate_inode at h
  cases hn : g.next_inode with
  | none => rw [hn] at h; cases h
  | some j =>
    rw [hn] at h
    simp only [Prod.mk.injEq, Option.some.injEq] at h
    obtain ⟨hji, hg'⟩ := h
    subst hji
    have hscan : (Group.position_false g.inode_bitmap).map (· + 1) = some j := by
      have := hacc.1.symm.trans hn
      simpa [Group.next_free_inode] using this
    obtain ⟨p, hp, hpj⟩ := Option.map_eq_some'.mp hscan
    have hspec := (position_false_spec _ _).mp hp
    have hlen : p < g.inode_bitmap.length := by
      by_contra hge
      rw [List.getD_eq_default _ _ (by omega)] at hspec
      exact absurd hspec.1 (by simp)
    constructor
    · refine ⟨by omega, ?_, ?_⟩
      · have : j - 1 = p := by omega
        rw [this]
        exact hspec.1
      · intro k hk
        exact hspec.2 k (by omega)
    · subst hg'
      simp only [Group.has_inode, Group.add_inode]
      have hp1 : j - 1 = p := by omega
      rw [hp1, List.getD_eq_getElem?_getD, List.getElem?_set_self (by omega)]
      rfl

theorem allocate_inode_none (g : Group) (hacc : g.cacheAccurate) :
    g.allocate_inode.1 = none ↔ g.free_inodes = 0 := by
  unfold Group.allocate_inode
  cases hn : g.next_inode with
  | some j =>
    simp only
    constructor
    · intro h; cases h
    · intro hcount
      exfalso
      have hscan : (Group.position_false g.inode_bitmap).map (· + 1) = some j := by
        have := hacc.1.symm.trans hn
        simpa [Group.next_free_inode] using this
      obtain ⟨p, hp, _⟩ := Option.map_eq_some'.mp hscan
      have hspec := (position_false_spec _ _).mp hp
      have hlen : p < g.inode_bitmap.length := by
        by_contra hge
        rw [List.getD_eq_default _ _ (by omega)] at hspec
        exact absurd hspec.1 (by simp)
      have hmem : false ∈ g.inode_bitmap := by
        have hg := List.getD_eq_getElem g.inode_bitmap true hlen
        rw [hg] at hspec
        exact hspec.1 ▸ List.getElem_mem hlen
      have := List.count_pos_iff.mpr hmem
      rw [Group.free_inodes] at hcount
      omega
  | none =>
    simp only
    have hne : g.next_free_inode = none := hacc.1.symm.trans hn
    have hpos : Group.position_false g.inode_bitmap = none := by
      cases hx : Group.position_false g.inode_bitmap with
      | none => rfl
      | some p => rw [Group.next_free_inode, hx] at hne; cases hne
    simp [Group.free_inodes, (position_false_none _).mp hpos]

theorem allocate_data_block_some (g : Group) (hacc : g.cacheAccurate)
    (i : Nat) (g' : Group) (h : g.allocate_data_block = (some i, g')) :
    isSmallestFree g.data_bitmap i ∧ g'.has_data_block i = true := by
  unfold Group.allocate_data_block at h
  cases hn : g.next_data_block with
  | none => rw [hn] at h; cases h
  | some j =>
    rw [hn] at h
    simp only [Prod.mk.injEq, Option.some.injEq] at h
    obtain ⟨hji, hg'⟩ := h
    subst hji
    have hscan : (Group.position_false g.data_bitmap).map (· + 1) = some j := by
      have := hacc.2.symm.trans hn
      simpa [Group.next_free_data_block] using this
    obtain ⟨p, hp, hpj⟩ := Option.map_eq_some'.mp hscan
    have hspec := (position_false_spec _ _).mp hp
    have hlen : p < g.data_bitmap.length := by
      by_contra hge
      rw [List.getD_eq_default _ _ (by omega)] at hspec
      exact absurd hspec.1 (by simp)
    constructor
    · refine ⟨by omega, ?_, ?_⟩
      · have : j - 1 = p := by omega
        rw [this]
        exact hspec.1
      · intro k hk
        exact hspec.2 k (by omega)
    · subst hg'
      simp only [Group.has_data_block, Group.add_data_block]
      have hp1 : j - 1 = p := by omega
      rw [hp1, List.getD_eq_getElem?_getD, List.getElem?_set_self (by omega)]
      rfl

theorem allocate_data_block_none (g : Group) (hacc : g.cacheAccurate) :
    g.allocate_data_block.1 = none ↔ g.free_data_blocks = 0 := by
  unfold Group.allocate_data_block
  cases hn : g.next_data_block with
  | some j =>
    simp only
    constructor
    · intro h; cases h
    · intro hcount
      exfalso
      have hscan : (Group.position_false g.data_bitmap).map (· + 1) = some j := by
        have := hacc.2.symm.trans hn
        simpa [Group.next_free_data_block] using this
      obtain ⟨p, hp, _⟩ := Option.map_eq_some'.mp hscan
      have hspec := (position_false_spec _ _).mp hp
      have hlen : p < g.data_bitmap.length := by
        by_contra hge
        rw [List.getD_eq_default _ _ (by omega)] at hspec
        exact absurd hspec.1 (by simp)
      have hmem : false ∈ g.data_bitmap := by
        have hg := List.getD_eq_getElem g.data_bitmap true hlen
        rw [hg] at hspec
        exact hspec.1 ▸ List.getElem_mem hlen
      have := List.count_pos_iff.mpr hmem
      rw [Group.free_data_blocks] at hcount
      omega
  | none =>
    simp only
    have hne : g.next_free_data_block = none := hacc.2.symm.trans hn
    have hpos : Group.position_false g.data_bitmap = none := by
      cases hx : Group.position_false g.data_bitmap with
      | none => rfl
      | some p => rw [Group.next_free_data_block, hx] at hne; cases hne
    simp [Group.free_data_blocks, (position_false_none _).mp hpos]

end GroupFacts

/-- C5: for every `Group` (as constructed by `Group::new`) and after any
sequence of allocate/release operations on it: `allocate_inode` /
`allocate_data_block` return `Some i` where `i` is the cached smallest free
1-based index of the corresponding bitmap — the smallest index whose bit is
0 — and set that bit, or return `None` exactly when no bit is free; and after
`release i` the cache again designates the smallest free index, so the next
allocate returns the smallest free index (first-free policy). -/
theorem claim_C5 (db ib : List Bool) (ops : List GroupOp) (g : Group)
    (hg : g = (Group.new db ib).applyOps ops) :
    (∀ i g', g.allocate_inode = (some i, g') →
      g.next_inode = some i ∧ isSmallestFree g.inode_bitmap i ∧
        g'.has_inode i = true) ∧
    (g.allocate_inode.1 = none ↔ g.free_inodes = 0) ∧
    (∀ i g', g.allocate_data_block = (some i, g') →
      g.next_data_block = some i ∧ isSmallestFree g.data_bitmap i ∧
        g'.has_data_block i = true) ∧
    (g.allocate_data_block.1 = none ↔ g.free_data_blocks = 0) ∧
    (∀ i j g', (g.release_inode i).allocate_inode = (some j, g') →
      isSmallestFree (g.release_inode i).inode_bitmap j) ∧
    (∀ i j g', (g.release_data_block i).allocate_data_block = (some j, g') →
      isSmallestFree (g.release_data_block i).data_bitmap j) := by
  have hacc : g.cacheAccurate := by
    rw [hg]
    exact GroupFacts.applyOps_cacheAccurate _ _ (GroupFacts.new_cacheAccurate db ib)
  refine ⟨?_, GroupFacts.allocate_inode_none g hacc, ?_,
    GroupFacts.allocate_data_block_none g hacc, ?_, ?_⟩
  · intro i g' h
    refine ⟨?_, GroupFacts.allocate_inode_some g hacc i g' h⟩
    unfold Group.allocate_inode at h
    cases hn : g.next_inode with
    | none => rw [hn] at h; cases h
    | some j =>
      rw [hn] at h
      simp only [Prod.mk.injEq, Option.some.injEq] at h
      rw [h.1]
  · intro i g' h
    refine ⟨?_, GroupFacts.allocate_data_block_some g hacc i g' h⟩
    unfold Group.allocate_data_block at h
    cases hn : g.next_data_block with
    | none => rw [hn] at h; cases h
    | some j =>
      rw [hn] at h
      simp only [Prod.mk.injEq, Option.some.injEq] at h
      rw [h.1]
  · intro i j g' h
    have hacc' : (g.release_inode i).cacheAccurate :=
      GroupFacts.release_inode_cacheAccurate g i hacc
    exact (GroupFacts.allocate_inode_some _ hacc' j g' h).1
  · intro i j g' h
    have hacc' : (g.release_data_block i).cacheAccurate :=
      GroupFacts.release_data_block_cacheAccurate g i hacc
    exact (GroupFacts.allocate_data_block_some _ hacc' j g' h).1

/-- Concrete instantiation of C5: one group with a two-bit inode bitmap whose
first bit is taken; allocating returns index 2 (the smallest free index) and
marks it. -/
theorem claim_C5_witness :
    (Group.new [false, false] [true, false]).next_inode = some 2 ∧
      isSmallestFree [true, false] 2 ∧
      ((Group.new [false, false] [true, false]).allocate_inode.2).has_inode 2 = true :=
  (claim_C5 [false, false] [true, false] [] _ rfl).1 2 _ rfl

/-! ### C1: the read-mode block mapping matches the reference table -/

namespace BlockMapFacts

theorem find_indirect_of_ptr_zero (d : Disk) (P index : Nat) :
    find_indirect d P 0 index = 0 := by
  rw [find_indirect]
  simp

theorem find_indirect_small (d : Disk) (j ptr index : Nat) (hptr : ptr ≠ 0)
    (hidx : index < 2 ^ j) :
    find_indirect d (2 ^ j) ptr index = read_u32 d index ptr := by
  rw [find_indirect]
  have hP : (2 : Nat) ^ j ≠ 0 := by positivity
  rw [if_neg hptr, dif_neg hP]
  have hoff : index &&& (2 ^ j - 1) = index := by
    rw [Nat.and_pow_two_sub_one_eq_mod, Nat.mod_eq_of_lt hidx]
  simp only [if_pos hidx, hoff]
  rw [dif_pos (Or.inr hidx)]

theorem find_indirect_large (d : Disk) (j ptr index : Nat) (hptr : ptr ≠ 0)
    (hidx : 2 ^ j ≤ index) :
    find_indirect d (2 ^ j) ptr index =
      (if read_u32 d (index / 2 ^ j - 1) ptr = 0 then 0
       else read_u32 d (index % 2 ^ j) (read_u32 d (index / 2 ^ j - 1) ptr)) := by
  rw [find_indirect]
  have hP : (2 : Nat) ^ j ≠ 0 := by positivity
  have hnlt : ¬ index < 2 ^ j := not_lt.mpr hidx
  rw [if_neg hptr, dif_neg hP]
  simp only [if_neg hnlt]
  by_cases hb : read_u32 d (index / 2 ^ j - 1) ptr = 0
  · simp only [hb, if_pos (Or.inl rfl : (0 : Nat) = 0 ∨ index < 2 ^ j)]
    split <;> simp_all
  · have hcond : ¬ (read_u32 d (index / 2 ^ j - 1) ptr = 0 ∨ index < 2 ^ j) := by
      push_neg
      exact ⟨hb, hidx⟩
    rw [dif_neg hcond, if_neg hb]
    have hmod : index &&& (2 ^ j - 1) = index % 2 ^ j :=
      Nat.and_pow_two_sub_one_eq_mod index j
    rw [hmod]
    exact find_indirect_small d j _ _ hb (Nat.mod_lt _ (by positivity))

theorem pow_div_four (k : Nat) (hk : 2 ≤ k) : 2 ^ k / 4 = 2 ^ (k - 2) := by
  have : (2 : Nat) ^ k = 2 ^ (k - 2) * 4 := by
    conv_lhs => rw [show k = (k - 2) + 2 by omega]
    rw [pow_add]
    norm_num
  rw [this, Nat.mul_div_cancel _ (by norm_num)]

theorem sub_div_self_eq (n P : Nat) (hP : 0 < P) (h : P ≤ n) :
    (n - P) / P = n / P - 1 := by
  obtain ⟨m, rfl⟩ : ∃ m, n = m + P := ⟨n - P, by omega⟩
  have h1 : (m + P) / P = m / P + 1 := Nat.add_div_right m hP
  have h2 : m + P - P = m := by omega
  rw [h2, h1, Nat.add_sub_cancel]

theorem sub_mod_self_eq (n P : Nat) (h : P ≤ n) : (n - P) % P = n % P := by
  obtain ⟨m, rfl⟩ : ∃ m, n = m + P := ⟨n - P, by omega⟩
  rw [Nat.add_sub_cancel, Nat.add_mod_right]

end BlockMapFacts

/-- C1: for every inode, power-of-two block size `BS` (a `u32`, so below
`2^32`) with `P = BS/4`, and byte offset `o` with `li = o div BS`, the
read-mode `find_data_block` returns exactly what the reference table
(`refBlockMap`, transcribed from the claim) prescribes: `direct_blocks[li]`
for `li ∈ [0,12)`; slot `li−12` of the block at `indirect_block` for
`li ∈ [12,12+P)`; outer slot `⌊(li−12−P)/P⌋` of `double_indirect_block` then
inner slot `(li−12−P) mod P` for `li ∈ [12+P,12+P+P²)`; `ENOSPC` beyond;
`EINVAL` on a zero pointer at any level; and on success the second component
is `(li+1)·BS − o`. -/
theorem claim_C1 (d : Disk) (BS : Nat) (inode : Inode) (o : Nat)
    (k : Nat) (hBS : BS = 2 ^ k) (hlt : BS < 2 ^ 32) :
    find_data_block_read d BS inode o = refBlockMap d BS inode o := by
  subst hBS
  have hBS0 : (2 : Nat) ^ k ≠ 0 := by positivity
  have hBSpos : 0 < (2 : Nat) ^ k := by positivity
  set li := o / 2 ^ k with hli
  set P := 2 ^ k / 4 with hP
  -- the success payload never truncates: (li+1)*BS - o = BS - o % BS ≤ BS < 2^32
  have hmod : 2 ^ k * li + o % 2 ^ k = o := by
    rw [hli]
    exact Nat.div_add_mod o (2 ^ k)
  have hrem : o % 2 ^ k < 2 ^ k := Nat.mod_lt _ hBSpos
  have hval : (li + 1) * 2 ^ k - o = 2 ^ k - o % 2 ^ k := by
    have : (li + 1) * 2 ^ k = 2 ^ k * li + 2 ^ k := by ring
    omega
  have htrunc : ((li + 1) * 2 ^ k - o) % 2 ^ 32 = (li + 1) * 2 ^ k - o := by
    apply Nat.mod_eq_of_lt
    omega
  have hlt32 : (li + 1) * 2 ^ k - o < 4294967296 := by
    have h32 : (4294967296 : Nat) = 2 ^ 32 := by norm_num
    omega
  have htrunc4 : ((li + 1) * 2 ^ k - o) % 4294967296 = (li + 1) * 2 ^ k - o :=
    Nat.mod_eq_of_lt hlt32
  unfold find_data_block_read refBlockMap
  rw [if_neg hBS0]
  simp only [DIRECT_POINTERS, ← hli, ← hP]
  by_cases h12 : li < 12
  · rw [if_pos h12, if_pos h12]
    unfold Inode.find_direct_block
    simp only [List.getD_eq_getElem?_getD]
    by_cases hb : inode.direct_blocks[li]?.getD 0 = 0
    · simp [hb]
    · simp [hb, htrunc, htrunc4]
  · -- beyond the direct range
    simp only [if_neg h12]
    have hk2_of_P : 0 < P → 2 ≤ k := by
      intro hPpos
      by_contra hk
      interval_cases k <;> simp_all [hP]
    by_cases hind : li < 12 + P
    · -- single-indirect range; it is nonempty, so P ≥ 1 and k ≥ 2
      have hPpos : 0 < P := by omega
      have hPpow : P = 2 ^ (k - 2) := hP.trans (BlockMapFacts.pow_div_four k (hk2_of_P hPpos))
      rw [if_pos (show li < P + 12 by omega), if_pos hind]
      by_cases hib : inode.indirect_block = 0

      · rw [hib, BlockMapFacts.find_indirect_of_ptr_zero]
        simp
      · rw [if_neg hib]
        have hsmall : li - 12 < P := by omega
        rw [hPpow] at hsmall ⊢
        rw [BlockMapFacts.find_indirect_small d (k - 2) _ _ hib hsmall]
        by_cases hb : read_u32 d (li - 12) inode.indirect_block = 0
        · simp [hb]
        · simp [hb, htrunc, htrunc4]
    · -- double-indirect range or beyond
      rw [if_neg (show ¬ li < P + 12 by omega), if_neg hind]
      by_cases hdbl : li < 12 + P + P * P
      · -- the double range is nonempty, so again P ≥ 1 and k ≥ 2
        have hPpos : 0 < P := by
          by_contra h0
          have hP0 : P = 0 := by omega
          rw [hP0] at hdbl
          simp at hdbl
          omega
        have hPpow : P = 2 ^ (k - 2) := hP.trans (BlockMapFacts.pow_div_four k (hk2_of_P hPpos))
        rw [if_pos (show li < P * P + P + 12 by omega), if_pos hdbl]
        by_cases hdb : inode.double_indirect_block = 0
        · rw [hdb, BlockMapFacts.find_indirect_of_ptr_zero]
          simp
        · rw [if_neg hdb]
          have hbig : P ≤ li - 12 := by omega
          have houter : (li - 12 - P) / P = (li - 12) / P - 1 :=
            BlockMapFacts.sub_div_self_eq _ _ hPpos hbig
          have hinner : (li - 12 - P) % P = (li - 12) % P :=
            BlockMapFacts.sub_mod_self_eq _ _ hbig
          rw [houter, hinner]
          rw [hPpow] at hbig ⊢
          rw [BlockMapFacts.find_indirect_large d (k - 2) _ _ hdb hbig]
          by_cases houter0 :
              read_u32 d ((li - 12) / 2 ^ (k - 2) - 1) inode.double_indirect_block = 0
          · simp [houter0]
          · rw [if_neg houter0]
            by_cases hb : read_u32 d ((li - 12) % 2 ^ (k - 2))
                (read_u32 d ((li - 12) / 2 ^ (k - 2) - 1) inode.double_indirect_block) = 0
            · simp [hb, houter0]
            · simp [hb, houter0, htrunc, htrunc4]
      · -- beyond both ranges: ENOSPC on both sides
        rw [if_neg (show ¬ li < P * P + P + 12 by omega), if_neg hdbl]


/-- Concrete instantiation of C1: block size 16 = 2^4 at byte offset 40. -/
theorem claim_C1_witness :
    (16 : Nat) = 2 ^ 4 ∧ (16 : Nat) < 2 ^ 32 ∧
      find_data_block_read c1Disk 16 c1Inode 40 = refBlockMap c1Disk 16 c1Inode 40 :=
  ⟨by norm_num, by norm_num, claim_C1 c1Disk 16 c1Inode 40 4 (by norm_num) (by norm_num)⟩

/-! ### C2 and C9: size and block count after a successful write -/

namespace WriteFacts

theorem add_block_size (inode : Inode) (b i : Nat) (inode' : Inode)
    (h : inode.add_block b i = some inode') : inode'.size = inode.size := by
  unfold Inode.add_block at h
  split at h
  · cases h
  · injection h with h
    subst h
    rfl

/-- The double-indirect write tail never changes the inode. -/
theorem find_data_block_write_double_size (st : FSState) (inode : Inode)
    (block index P blk_size : Nat) :
    ((FSState.find_data_block_write_double st inode block index P blk_size).2.1).size
      = inode.size := by
  unfold FSState.find_data_block_write_double
  dsimp only
  repeat'
    first
      | rfl
      | split

set_option maxHeartbeats 2000000 in
/-- The write-mode mapping never changes the inode's `size` (it only touches
the block-pointer fields). -/
theorem find_data_block_write_size (st : FSState) (inode : Inode) (off : Nat) :
    ((FSState.find_data_block_write st inode off).2.1).size = inode.size := by
  unfold FSState.find_data_block_write
  dsimp only
  repeat'
    first
      | rfl
      | (exact add_block_size _ _ _ _ (by assumption))
      | (exact find_data_block_write_double_size _ _ _ _ _ _)
      | split

/-- A write loop that ends in `ok` returns an inode with the size it started
with, and reports exactly `data.length` bytes written. -/
theorem write_loop_ok (data : List Nat) (fuel : Nat) :
    ∀ st inode t c st' inode' w,
      FSState.write_loop st inode data fuel t c = (st', .ok (inode', w)) →
      inode'.size = inode.size ∧ w = data.length := by
  induction fuel with
  | zero =>
    intro st inode t c st' inode' w h
    rw [FSState.write_loop.eq_def] at h
    split at h
    · rename_i ht
      injection h with h1 h2
      injection h2 with h2
      injection h2 with h3 h4
      subst h3
      subst h4
      exact ⟨rfl, ht⟩
    · simp at h
  | succ fuel ih =>
    intro st inode t c st' inode' w h
    rw [FSState.write_loop.eq_def] at h
    split at h
    · rename_i ht
      injection h with h1 h2
      injection h2 with h2
      injection h2 with h3 h4
      subst h3
      subst h4
      exact ⟨rfl, ht⟩
    · dsimp only at h
      split at h
      · simp at h
      · rename_i hfd
        split at h
        · simp at h
        · have hrec := ih _ _ _ _ _ _ _ h
          refine ⟨?_, hrec.2⟩
          rw [hrec.1]
          have hpres := find_data_block_write_size st inode c
          rw [hfd] at hpres
          exact hpres

end WriteFacts

/-- C2, corrected to the source: a successful `write(ino, offset, data)`
returns `w = data.len()` written bytes, and the persisted inode's size is
`max(old_size, w)` when the write started strictly below the old size
(`old_size > offset`, the `overwrite` path, via `adjust_size`), and
`old_size + w` (u64-wrapped) otherwise (via `increment_size`).  In
particular a strictly extending write does *not* in general end with size
`max(old_size, offset + w)`. -/
theorem claim_C2 (st : FSState) (now : SysTime) (ino offset : Nat)
    (data : List Nat) (st' : FSState) (w : Nat) (inode0 : Inode)
    (hfind : st.find_inode ino = .ok inode0)
    (h : FSState.write_op st now ino offset data = (st', .ok w)) :
    w = data.length ∧
      (st'.inodeTable ino).size =
        if offset < inode0.size then max inode0.size w
        else (inode0.size + w) % 2 ^ 64 := by
  unfold FSState.write_op at h
  rw [hfind] at h
  dsimp only at h
  cases hloop : FSState.write_loop st inode0 data data.length 0 offset with
  | mk stl r =>
    rw [hloop] at h
    cases r with
    | error e => cases h
    | ok p =>
      obtain ⟨inode1, tw⟩ := p
      obtain ⟨hsz, htw⟩ := WriteFacts.write_loop_ok data data.length _ _ _ _ _ _ _ hloop
      dsimp only at h
      injection h with h1 h2
      injection h2 with h2
      subst h2
      subst h1
      subst htw
      refine ⟨rfl, ?_⟩
      by_cases hov : offset < inode0.size
      · simp [FSState.save_inode, updF, hov, Inode.adjust_size,
          Inode.update_modified_at, hsz]
      · simp [FSState.save_inode, updF, hov, Inode.increment_size,
          Inode.update_modified_at, hsz]

/-- C2 witness: writing 8 bytes at offset 5 into the 10-byte file of
`exState` (an overwrite-path write). -/
theorem claim_C2_witness :
    (8 : Nat) = (List.replicate 8 (170 : Nat)).length ∧
      ((FSState.write_op exState ⟨0, 0⟩ 2 5 (List.replicate 8 170)).1.inodeTable 2).size =
        if 5 < (exState.inodeTable 2).size then max (exState.inodeTable 2).size 8
        else ((exState.inodeTable 2).size + 8) % 2 ^ 64 :=
  claim_C2 exState ⟨0, 0⟩ 2 5 (List.replicate 8 170)
    (FSState.write_op exState ⟨0, 0⟩ 2 5 (List.replicate 8 170)).1 8
    (exState.inodeTable 2) rfl rfl

/-- C2 counterexample: in `exState`, inode 2 has size 10; writing 8 bytes at
offset 5 succeeds (returns 8 written), `offset + written = 13 > 10` strictly
extends the file, yet the persisted size is 10, not
`max(old_size, offset + written) = 13`. -/
theorem claim_C2_counterexample :
    (FSState.write_op exState ⟨0, 0⟩ 2 5 (List.replicate 8 170)).2 = .ok 8 ∧
      (exState.inodeTable 2).size = 10 ∧
      (exState.inodeTable 2).size < 5 + 8 ∧
      ¬ ((FSState.write_op exState ⟨0, 0⟩ 2 5
            (List.replicate 8 170)).1.inodeTable 2).size =
          max (exState.inodeTable 2).size (5 + 8) := by
  refine ⟨rfl, rfl, by decide, by decide⟩

/-- C9, corrected to the source: after every successful write the persisted
inode's `block_count` equals `size as u32 / 512 + 1` — the floor of
`size/512` plus one — not `⌈size/512⌉` (the two differ exactly when 512
divides the size, including size 0). -/
theorem claim_C9 (st : FSState) (now : SysTime) (ino offset : Nat)
    (data : List Nat) (st' : FSState) (w : Nat)
    (h : FSState.write_op st now ino offset data = (st', .ok w)) :
    (st'.inodeTable ino).block_count =
      (st'.inodeTable ino).size % 2 ^ 32 / 512 + 1 := by
  unfold FSState.write_op at h
  cases hfind : st.find_inode ino with
  | error e => rw [hfind] at h; cases h
  | ok inode0 =>
    rw [hfind] at h
    dsimp only at h
    cases hloop : FSState.write_loop st inode0 data data.length 0 offset with
    | mk stl r =>
      rw [hloop] at h
      cases r with
      | error e => cases h
      | ok p =>
        obtain ⟨inode1, tw⟩ := p
        dsimp only at h
        injection h with h1 h2
        injection h2 with h2
        subst h2
        subst h1
        by_cases hov : offset < inode0.size
        · simp [FSState.save_inode, updF, hov, Inode.adjust_size, Inode.update_modified_at]
        · simp [FSState.save_inode, updF, hov, Inode.increment_size, Inode.update_modified_at]

/-- C9 witness: the empty write at offset 0 to the empty inode 3 of
`exState`. -/
theorem claim_C9_witness :
    ((FSState.write_op exState ⟨0, 0⟩ 3 0 []).1.inodeTable 3).block_count =
      ((FSState.write_op exState ⟨0, 0⟩ 3 0 []).1.inodeTable 3).size % 2 ^ 32 / 512 + 1 :=
  claim_C9 exState ⟨0, 0⟩ 3 0 [] (FSState.write_op exState ⟨0, 0⟩ 3 0 []).1 0 rfl

/-- C9 counterexample: the empty write to the empty inode 3 of `exState`
succeeds with final size 0, and stores `block_count = 1`, while
`⌈0 / 512⌉ = 0`. -/
theorem claim_C9_counterexample :
    (FSState.write_op exState ⟨0, 0⟩ 3 0 []).2 = .ok 0 ∧
      ((FSState.write_op exState ⟨0, 0⟩ 3 0 []).1.inodeTable 3).size = 0 ∧
      ((FSState.write_op exState ⟨0, 0⟩ 3 0 []).1.inodeTable 3).block_count = 1 ∧
      ¬ ((FSState.write_op exState ⟨0, 0⟩ 3 0 []).1.inodeTable 3).block_count =
          (((FSState.write_op exState ⟨0, 0⟩ 3 0 []).1.inodeTable 3).size + 511) / 512 := by
  refine ⟨rfl, rfl, rfl, by decide⟩

/-! ### C3: unlink -/

namespace UnlinkFacts

theorem getD_set_ne (l : List Bool) (i j : Nat) (v d : Bool) (h : i ≠ j) :
    (l.set i v).getD j d = l.getD j d := by
  rw [List.getD_eq_getElem?_getD, List.getD_eq_getElem?_getD, List.getElem?_set_ne h]

theorem getD_set_false_self (l : List Bool) (i : Nat) :
    (l.set i false).getD i false = false := by
  by_cases h : i < l.length
  · rw [List.getD_eq_getElem?_getD, List.getElem?_set_self h]
    rfl
  · rw [List.set_eq_of_length_le (by omega), List.getD_eq_default _ _ (by omega)]

theorem mask_eq_self (m b : Nat) (h : b < 2 ^ m) : b &&& (2 ^ m - 1) = b := by
  rw [Nat.and_pow_two_sub_one_eq_mod, Nat.mod_eq_of_lt h]

theorem btGet_eq_none_of_not_mem (l : List (Name × Nat)) (k : Name)
    (h : k ∉ l.map Prod.fst) : btGet l k = none := by
  induction l with
  | nil => rfl
  | cons p rest ih =>
    simp only [List.map_cons, List.mem_cons] at h
    push_neg at h
    unfold btGet
    rw [if_neg (fun hc => h.1 hc.symm)]
    exact ih h.2

theorem btGet_btRemove_none (l : List (Name × Nat)) (k : Name)
    (hnodup : (l.map Prod.fst).Nodup) (v : Nat) (r : List (Name × Nat))
    (h : btRemove l k = (some v, r)) : btGet r k = none := by
  induction l generalizing r with
  | nil => cases h
  | cons p rest ih =>
    obtain ⟨k0, v0⟩ := p
    simp only [List.map_cons, List.nodup_cons] at hnodup
    unfold btRemove at h
    by_cases hk : k0 = k
    · rw [if_pos hk] at h
      injection h with h1 h2
      subst h2
      subst hk
      exact btGet_eq_none_of_not_mem rest k0 hnodup.1
    · rw [if_neg hk] at h
      injection h with h1 h2
      subst h2
      unfold btGet
      rw [if_neg hk]
      cases hrec : btRemove rest k with
      | mk o r' =>
        cases o with
        | none => rw [hrec] at h1; cases h1
        | some w =>
          rw [hrec] at h1
          injection h1 with h1
          subst h1
          exact ih hnodup.2 r' hrec

theorem btRemove_of_btGet_none (l : List (Name × Nat)) (k : Name)
    (h : btGet l k = none) : btRemove l k = (none, l) := by
  induction l with
  | nil => rfl
  | cons p rest ih =>
    obtain ⟨k0, v0⟩ := p
    unfold btGet at h
    unfold btRemove
    by_cases hk : k0 = k
    · rw [if_pos hk] at h; cases h
    · rw [if_neg hk] at h
      rw [if_neg hk, ih h]

end UnlinkFacts

/-- C3 counterexample: in `c3State`, unlinking "a" (inode 2, whose
`indirect_block` is block 3 holding the single pointer 4) succeeds and
releases the pointed-to block 4, but the indirect block 3 itself keeps its
bitmap bit — it is not released, contradicting the claim. -/
theorem claim_C3_counterexample :
    (FSState.unlink_op c3State ⟨0, 0⟩ 1 [97]).2 = .ok () ∧
      (c3State.inodeTable 2).indirect_block = 3 ∧
      c3State.dataBit 3 = true ∧
      ((FSState.unlink_op c3State ⟨0, 0⟩ 1 [97]).1).dataBit 4 = false ∧
      ((FSState.unlink_op c3State ⟨0, 0⟩ 1 [97]).1).dataBit 3 = true := by
  refine ⟨rfl, rfl, by decide, by decide, by decide⟩

namespace UnlinkFacts

/-! Shape preservation along the release operations. -/

theorem release_one_sb (st : FSState) (x : Nat) :
    (st.release_one_data_block x).sb = st.sb := by
  unfold FSState.release_one_data_block
  dsimp only
  split <;> rfl

theorem release_one_disk (st : FSState) (x : Nat) :
    (st.release_one_data_block x).disk = st.disk := by
  unfold FSState.release_one_data_block
  dsimp only
  split <;> rfl

theorem release_one_inodeTable (st : FSState) (x : Nat) :
    (st.release_one_data_block x).inodeTable = st.inodeTable := by
  unfold FSState.release_one_data_block
  dsimp only
  split <;> rfl

theorem release_one_dirTable (st : FSState) (x : Nat) :
    (st.release_one_data_block x).dirTable = st.dirTable := by
  unfold FSState.release_one_data_block
  dsimp only
  split <;> rfl

theorem release_one_groups_length (st : FSState) (x : Nat) :
    (st.release_one_data_block x).groups.length = st.groups.length := by
  unfold FSState.release_one_data_block
  dsimp only
  split
  · rfl
  · simp

theorem fold_sb (L : List Nat) :
    ∀ st : FSState, (L.foldl FSState.release_one_data_block st).sb = st.sb := by
  induction L with
  | nil => intro st; rfl
  | cons x L ih =>
    intro st
    rw [List.foldl_cons, ih, release_one_sb]

theorem fold_disk (L : List Nat) :
    ∀ st : FSState, (L.foldl FSState.release_one_data_block st).disk = st.disk := by
  induction L with
  | nil => intro st; rfl
  | cons x L ih =>
    intro st
    rw [List.foldl_cons, ih, release_one_disk]

theorem fold_inodeTable (L : List Nat) :
    ∀ st : FSState,
      (L.foldl FSState.release_one_data_block st).inodeTable = st.inodeTable := by
  induction L with
  | nil => intro st; rfl
  | cons x L ih =>
    intro st
    rw [List.foldl_cons, ih, release_one_inodeTable]

theorem fold_dirTable (L : List Nat) :
    ∀ st : FSState,
      (L.foldl FSState.release_one_data_block st).dirTable = st.dirTable := by
  induction L with
  | nil => intro st; rfl
  | cons x L ih =>
    intro st
    rw [List.foldl_cons, ih, release_one_dirTable]

theorem fold_groups_length (L : List Nat) :
    ∀ st : FSState,
      (L.foldl FSState.release_one_data_block st).groups.length = st.groups.length := by
  induction L with
  | nil => intro st; rfl
  | cons x L ih =>
    intro st
    rw [List.foldl_cons, ih, release_one_groups_length]

theorem rdb_sb_dbpg (st : FSState) (L : List Nat) :
    (st.release_data_blocks L).sb.data_blocks_per_group
      = st.sb.data_blocks_per_group := by
  show (L.foldl FSState.release_one_data_block st).sb.data_blocks_per_group = _
  rw [fold_sb]

theorem rdb_sb_block_size (st : FSState) (L : List Nat) :
    (st.release_data_blocks L).sb.block_size = st.sb.block_size := by
  show (L.foldl FSState.release_one_data_block st).sb.block_size = _
  rw [fold_sb]

theorem rdb_disk (st : FSState) (L : List Nat) :
    (st.release_data_blocks L).disk = st.disk := by
  show (L.foldl FSState.release_one_data_block st).disk = _
  rw [fold_disk]

theorem rdb_inodeTable (st : FSState) (L : List Nat) :
    (st.release_data_blocks L).inodeTable = st.inodeTable := by
  show (L.foldl FSState.release_one_data_block st).inodeTable = _
  rw [fold_inodeTable]

theorem rdb_dirTable (st : FSState) (L : List Nat) :
    (st.release_data_blocks L).dirTable = st.dirTable := by
  show (L.foldl FSState.release_one_data_block st).dirTable = _
  rw [fold_dirTable]

theorem rdb_groups_length (st : FSState) (L : List Nat) :
    (st.release_data_blocks L).groups.length = st.groups.length := by
  show (L.foldl FSState.release_one_data_block st).groups.length = _
  rw [fold_groups_length]

theorem rdb_read_indirect (st : FSState) (L : List Nat) (b : Nat) :
    (st.release_data_blocks L).read_indirect_block b = st.read_indirect_block b := by
  unfold FSState.read_indirect_block
  rw [rdb_sb_block_size]
  rw [show (st.release_data_blocks L).disk = st.disk from rdb_disk st L]

end UnlinkFacts

namespace UnlinkFacts

theorem listGetD_set {α : Type} (l : List α) (i j : Nat) (v d : α) :
    (l.set i v).getD j d = if i = j ∧ i < l.length then v else l.getD j d := by
  by_cases h : i = j ∧ i < l.length
  · obtain ⟨rfl, hlt⟩ := h
    rw [if_pos ⟨rfl, hlt⟩, List.getD_eq_getElem?_getD, List.getElem?_set_self hlt]
    rfl
  · rw [if_neg h]
    by_cases hij : i = j
    · subst hij
      have hge : ¬ i < l.length := fun hlt => h ⟨rfl, hlt⟩
      rw [List.set_eq_of_length_le (by omega)]
    · rw [List.getD_eq_getElem?_getD, List.getD_eq_getElem?_getD,
        List.getElem?_set_ne hij]

theorem getD_of_getElem?_eq {α : Type} (l : List α) (i : Nat) (a d : α)
    (h : l[i]? = some a) : l.getD i d = a := by
  rw [List.getD_eq_getElem?_getD, h]
  rfl

theorem release_data_block_bitmap (g : Group) (p : Nat) :
    (g.release_data_block (1 + p)).data_bitmap = g.data_bitmap.set p false := by
  unfold Group.release_data_block
  dsimp only
  rw [Nat.add_sub_cancel_left]

theorem release_data_block_inode_bitmap (g : Group) (p : Nat) :
    (g.release_data_block p).inode_bitmap = g.inode_bitmap := rfl

theorem release_inode_bitmap (g : Group) (p : Nat) :
    (g.release_inode p).inode_bitmap = g.inode_bitmap.set (p - 1) false := rfl

theorem release_inode_data_bitmap (g : Group) (p : Nat) :
    (g.release_inode p).data_bitmap = g.data_bitmap := rfl

/-- `release_one_data_block` never turns a clear data bit back on. -/
theorem dataBit_release_one_mono (st : FSState) (x b : Nat)
    (h : st.dataBit b = false) :
    (st.release_one_data_block x).dataBit b = false := by
  unfold FSState.release_one_data_block
  dsimp only
  split
  · exact h
  · rename_i g hg
    rw [List.get?_eq_getElem?] at hg
    simp only [FSState.data_block_offsets] at hg ⊢
    unfold FSState.dataBit at h ⊢
    dsimp only
    rw [listGetD_set]
    split
    · rename_i hc
      rw [release_data_block_bitmap]
      obtain ⟨hgeq, hlt⟩ := hc
      by_cases hp : (x - 1) &&& (st.sb.data_blocks_per_group - 1)
          = (b - 1) &&& (st.sb.data_blocks_per_group - 1)
      · rw [hp, getD_set_false_self]
      · rw [getD_set_ne _ _ _ _ _ hp]
        rw [← hgeq] at h
        rw [getD_of_getElem?_eq _ _ _ _ hg] at h
        exact h
    · exact h

/-- Distinct (group, bit) positions: the release of `x` leaves `b`'s data
bit unchanged. -/
theorem dataBit_release_one_ne (st : FSState) (x b : Nat)
    (h : ¬((x - 1) / st.sb.data_blocks_per_group = (b - 1) / st.sb.data_blocks_per_group ∧
        (x - 1) &&& (st.sb.data_blocks_per_group - 1)
          = (b - 1) &&& (st.sb.data_blocks_per_group - 1))) :
    (st.release_one_data_block x).dataBit b = st.dataBit b := by
  unfold FSState.release_one_data_block
  dsimp only
  split
  · rfl
  · rename_i g hg
    rw [List.get?_eq_getElem?] at hg
    simp only [FSState.data_block_offsets] at hg ⊢
    unfold FSState.dataBit
    dsimp only
    rw [listGetD_set]
    split
    · rename_i hc
      obtain ⟨hgeq, hlt⟩ := hc
      rw [release_data_block_bitmap]
      have hp : (x - 1) &&& (st.sb.data_blocks_per_group - 1)
          ≠ (b - 1) &&& (st.sb.data_blocks_per_group - 1) := fun hpe => h ⟨hgeq, hpe⟩
      rw [getD_set_ne _ _ _ _ _ hp, ← hgeq, getD_of_getElem?_eq _ _ _ _ hg]
    · rfl

/-- Releasing `x` clears `x`'s own data bit (when its group exists). -/
theorem dataBit_release_one_self (st : FSState) (x : Nat)
    (hg : (x - 1) / st.sb.data_blocks_per_group < st.groups.length) :
    (st.release_one_data_block x).dataBit x = false := by
  unfold FSState.release_one_data_block
  dsimp only
  split
  · rename_i hnone
    rw [List.get?_eq_getElem?] at hnone
    simp only [FSState.data_block_offsets] at hnone
    rw [List.getElem?_eq_none_iff] at hnone
    omega
  · rename_i g hgs
    simp only [FSState.data_block_offsets] at hgs ⊢
    unfold FSState.dataBit
    dsimp only
    rw [listGetD_set, if_pos ⟨rfl, hg⟩, release_data_block_bitmap, getD_set_false_self]

/-- `release_one_data_block` never touches inode bitmaps. -/
theorem inodeBit_release_one (st : FSState) (x i : Nat) :
    (st.release_one_data_block x).inodeBit i = st.inodeBit i := by
  unfold FSState.release_one_data_block
  dsimp only
  split
  · rfl
  · rename_i g hg
    rw [List.get?_eq_getElem?] at hg
    simp only [FSState.data_block_offsets] at hg ⊢
    unfold FSState.inodeBit
    dsimp only
    rw [listGetD_set]
    split
    · rename_i hc
      obtain ⟨hgeq, hlt⟩ := hc
      rw [release_data_block_inode_bitmap, ← hgeq, getD_of_getElem?_eq _ _ _ _ hg]
    · rfl

theorem dataBit_fold_mono (L : List Nat) :
    ∀ st : FSState, ∀ b, st.dataBit b = false →
      (L.foldl FSState.release_one_data_block st).dataBit b = false := by
  induction L with
  | nil => intro st b h; exact h
  | cons x L ih =>
    intro st b h
    rw [List.foldl_cons]
    exact ih _ b (dataBit_release_one_mono st x b h)

theorem dataBit_fold_ne (L : List Nat) :
    ∀ st : FSState, ∀ b,
      (∀ x ∈ L,
        ¬((x - 1) / st.sb.data_blocks_per_group
              = (b - 1) / st.sb.data_blocks_per_group ∧
          (x - 1) &&& (st.sb.data_blocks_per_group - 1)
              = (b - 1) &&& (st.sb.data_blocks_per_group - 1))) →
      (L.foldl FSState.release_one_data_block st).dataBit b = st.dataBit b := by
  induction L with
  | nil => intro st b _; rfl
  | cons x L ih =>
    intro st b h
    rw [List.foldl_cons]
    have hD : (st.release_one_data_block x).sb = st.sb := release_one_sb st x
    have hrest := ih (st.release_one_data_block x) b (by
      intro y hy
      rw [hD]
      exact h y (List.mem_cons_of_mem x hy))
    rw [hrest, dataBit_release_one_ne st x b (h x (List.mem_cons_self x L))]

theorem dataBit_fold_mem (L : List Nat) :
    ∀ st : FSState, ∀ b ∈ L,
      (b - 1) / st.sb.data_blocks_per_group < st.groups.length →
      (L.foldl FSState.release_one_data_block st).dataBit b = false := by
  induction L with
  | nil => intro st b hb; cases hb
  | cons x L ih =>
    intro st b hb hg
    rw [List.foldl_cons]
    rcases List.mem_cons.mp hb with rfl | hmem
    · exact dataBit_fold_mono L _ b (dataBit_release_one_self st b hg)
    · refine ih _ b hmem ?_
      rw [release_one_sb, release_one_groups_length]
      exact hg

theorem inodeBit_fold (L : List Nat) :
    ∀ st : FSState, ∀ i,
      (L.foldl FSState.release_one_data_block st).inodeBit i = st.inodeBit i := by
  induction L with
  | nil => intro st i; rfl
  | cons x L ih =>
    intro st i
    rw [List.foldl_cons, ih, inodeBit_release_one]

/-- Restatement of the fold lemmas for `release_data_blocks` (whose
superblock update does not affect the bitmap views). -/
theorem dataBit_rdb_mono (st : FSState) (L : List Nat) (b : Nat)
    (h : st.dataBit b = false) : (st.release_data_blocks L).dataBit b = false :=
  dataBit_fold_mono L st b h

theorem dataBit_rdb_ne (st : FSState) (L : List Nat) (b : Nat)
    (h : ∀ x ∈ L,
      ¬((x - 1) / st.sb.data_blocks_per_group
            = (b - 1) / st.sb.data_blocks_per_group ∧
        (x - 1) &&& (st.sb.data_blocks_per_group - 1)
            = (b - 1) &&& (st.sb.data_blocks_per_group - 1))) :
    (st.release_data_blocks L).dataBit b = st.dataBit b :=
  dataBit_fold_ne L st b h

theorem dataBit_rdb_mem (st : FSState) (L : List Nat) (b : Nat) (hb : b ∈ L)
    (hg : (b - 1) / st.sb.data_blocks_per_group < st.groups.length) :
    (st.release_data_blocks L).dataBit b = false :=
  dataBit_fold_mem L st b hb hg

theorem inodeBit_rdb (st : FSState) (L : List Nat) (i : Nat) :
    (st.release_data_blocks L).inodeBit i = st.inodeBit i :=
  inodeBit_fold L st i

end UnlinkFacts

namespace UnlinkFacts

theorem release_inode_inodeTable (st : FSState) (i : Nat) :
    (st.release_inode i).inodeTable = st.inodeTable := by
  unfold FSState.release_inode
  dsimp only
  split <;> rfl

theorem release_inode_dirTable (st : FSState) (i : Nat) :
    (st.release_inode i).dirTable = st.dirTable := by
  unfold FSState.release_inode
  dsimp only
  split <;> rfl

theorem release_inode_sb_dbpg (st : FSState) (i : Nat) :
    (st.release_inode i).sb.data_blocks_per_group = st.sb.data_blocks_per_group := by
  unfold FSState.release_inode
  dsimp only
  split <;> rfl

theorem release_inode_groups_length (st : FSState) (i : Nat) :
    (st.release_inode i).groups.length = st.groups.length := by
  unfold FSState.release_inode
  dsimp only
  split
  · rfl
  · simp

theorem dataBit_release_inode (st : FSState) (i b : Nat) :
    (st.release_inode i).dataBit b = st.dataBit b := by
  unfold FSState.release_inode
  dsimp only
  split
  · rfl
  · rename_i g hg
    rw [List.get?_eq_getElem?] at hg
    simp only [FSState.inode_offsets] at hg ⊢
    unfold FSState.dataBit
    dsimp only
    rw [listGetD_set]
    split
    · rename_i hc
      obtain ⟨hgeq, hlt⟩ := hc
      rw [release_inode_data_bitmap, ← hgeq, getD_of_getElem?_eq _ _ _ _ hg]
    · rfl

theorem inodeBit_release_inode_self (st : FSState) (i : Nat)
    (hg : (i - 1) / st.sb.data_blocks_per_group < st.groups.length) :
    (st.release_inode i).inodeBit i = false := by
  unfold FSState.release_inode
  dsimp only
  split
  · rename_i hnone
    rw [List.get?_eq_getElem?] at hnone
    simp only [FSState.inode_offsets] at hnone
    rw [List.getElem?_eq_none_iff] at hnone
    omega
  · rename_i g hgs
    simp only [FSState.inode_offsets] at hgs ⊢
    unfold FSState.inodeBit
    dsimp only
    rw [listGetD_set, if_pos ⟨rfl, hg⟩, release_inode_bitmap, getD_set_false_self]

theorem inodeBit_release_inode_ne (st : FSState) (i j : Nat)
    (h : ¬((i - 1) / st.sb.data_blocks_per_group = (j - 1) / st.sb.data_blocks_per_group ∧
        i - 1 = j - 1)) :
    (st.release_inode i).inodeBit j = st.inodeBit j := by
  unfold FSState.release_inode
  dsimp only
  split
  · rfl
  · rename_i g hg
    rw [List.get?_eq_getElem?] at hg
    simp only [FSState.inode_offsets] at hg ⊢
    unfold FSState.inodeBit
    dsimp only
    rw [listGetD_set]
    split
    · rename_i hc
      obtain ⟨hgeq, hlt⟩ := hc
      rw [release_inode_bitmap]
      have hp : i - 1 ≠ j - 1 := fun hpe => h ⟨hgeq, hpe⟩
      rw [getD_set_ne _ _ _ _ _ hp, ← hgeq, getD_of_getElem?_eq _ _ _ _ hg]
    · rfl

theorem find_inode_ok_inv (st : FSState) (i : Nat) (inode : Inode)
    (h : st.find_inode i = .ok inode) :
    inode = st.inodeTable i ∧ st.inodeBit i = true ∧
      (i - 1) / st.sb.data_blocks_per_group < st.groups.length := by
  unfold FSState.find_inode at h
  simp only [FSState.inode_offsets] at h
  cases hg : st.groups.get? ((i - 1) / st.sb.data_blocks_per_group) with
  | none => rw [hg] at h; cases h
  | some g =>
    rw [hg] at h
    rw [List.get?_eq_getElem?] at hg
    dsimp only at h
    split at h
    · cases h
    · rename_i hcond
      injection h with h
      subst h
      have hbit : g.has_inode i = true := by
        by_contra hb
        exact hcond (by simpa using hb)
      refine ⟨rfl, ?_, ?_⟩
      · unfold FSState.inodeBit
        rw [getD_of_getElem?_eq _ _ _ _ hg]
        exact hbit
      · rcases List.getElem?_eq_some.mp hg with ⟨hlt, _⟩
        exact hlt

theorem find_inode_of_bit (st : FSState) (i : Nat)
    (hg : (i - 1) / st.sb.data_blocks_per_group < st.groups.length) :
    st.find_inode i =
      if st.inodeBit i then .ok (st.inodeTable i) else .error .ENOENT := by
  unfold FSState.find_inode
  simp only [FSState.inode_offsets]
  rw [List.get?_eq_getElem?, List.getElem?_eq_getElem hg]
  have hbit : st.inodeBit i
      = (st.groups[(i - 1) / st.sb.data_blocks_per_group]).has_inode i := by
    unfold FSState.inodeBit Group.has_inode
    rw [getD_of_getElem?_eq _ _ _ _ (List.getElem?_eq_getElem hg)]
  rw [hbit]
  cases hB : (st.groups[(i - 1) / st.sb.data_blocks_per_group]).has_inode i
  · simp [hB]
  · simp [hB]

theorem save_dir_ok_inv (st : FSState) (now : SysTime) (d : Directory) (n : Nat)
    (st2 : FSState) (h : st.save_dir now d n = .ok st2) :
    st2 = { st with
      inodeTable := updF st.inodeTable n ((st.inodeTable n).update_modified_at now)
      dirTable := updF st.dirTable n d } := by
  unfold FSState.save_dir at h
  cases hfi : st.find_inode n with
  | error e => rw [hfi] at h; cases h
  | ok inode =>
    rw [hfi] at h
    obtain ⟨hv, _, _⟩ := find_inode_ok_inv st n inode hfi
    subst hv
    dsimp only at h
    injection h with h
    subst h
    rfl

end UnlinkFacts

namespace UnlinkFacts

theorem pos_ne_of_mask (m x b : Nat) (hx1 : 1 ≤ x) (hxm : x - 1 < 2 ^ m)
    (hb1 : 1 ≤ b) (hxb : x ≠ b) :
    ¬((x - 1) / 2 ^ m = (b - 1) / 2 ^ m ∧
      (x - 1) &&& (2 ^ m - 1) = (b - 1) &&& (2 ^ m - 1)) := by
  rintro ⟨h1, h2⟩
  rw [mask_eq_self m _ hxm] at h2
  have hx0 : (x - 1) / 2 ^ m = 0 := Nat.div_eq_of_lt hxm
  rw [hx0] at h1
  have hbm : b - 1 < 2 ^ m := by
    by_contra hge
    push_neg at hge
    have h1' : 1 ≤ (b - 1) / 2 ^ m := (Nat.one_le_div_iff (by positivity)).mpr hge
    omega
  rw [mask_eq_self m _ hbm] at h2
  omega

theorem find_dir_ok_inv (st : FSState) (p : Nat) (dir : Directory)
    (h : st.find_dir_from_inode p = .ok dir) :
    st.inodeBit p = true ∧
      (p - 1) / st.sb.data_blocks_per_group < st.groups.length ∧
      (st.inodeTable p).is_dir = true ∧
      (st.groups.getD ((p - 1) / st.sb.data_blocks_per_group)
            ⟨[], [], none, none⟩).data_bitmap.getD
          ((st.inodeTable p).find_direct_block 0 - 1) false = true ∧
      dir = st.dirTable ((st.inodeTable p).find_direct_block 0) := by
  unfold FSState.find_dir_from_inode at h
  cases hfi : st.find_inode p with
  | error e => rw [hfi] at h; cases h
  | ok inode =>
    rw [hfi] at h
    obtain ⟨hv, hbit, hlen⟩ := find_inode_ok_inv st p inode hfi
    subst hv
    dsimp only at h
    split at h
    · cases h
    · rename_i hdir
      simp only [FSState.data_block_offsets] at h
      cases hg2 : st.groups.get? ((p - 1) / st.sb.data_blocks_per_group) with
      | none => rw [hg2] at h; cases h
      | some g =>
        rw [hg2] at h
        rw [List.get?_eq_getElem?] at hg2
        dsimp only at h
        split at h
        · cases h
        · rename_i hdb
          injection h with h
          subst h
          have hdb' : g.has_data_block ((st.inodeTable p).find_direct_block 0) = true := by
            by_contra hb
            exact hdb (by simpa using hb)
          refine ⟨hbit, hlen, by simpa using hdir, ?_, rfl⟩
          rw [getD_of_getElem?_eq _ _ _ _ hg2]
          exact hdb'

theorem find_dir_ok_of (st : FSState) (p : Nat)
    (hlen : (p - 1) / st.sb.data_blocks_per_group < st.groups.length)
    (hbit : st.inodeBit p = true)
    (hdir : (st.inodeTable p).is_dir = true)
    (hdata : (st.groups.getD ((p - 1) / st.sb.data_blocks_per_group)
          ⟨[], [], none, none⟩).data_bitmap.getD
        ((st.inodeTable p).find_direct_block 0 - 1) false = true) :
    st.find_dir_from_inode p
      = .ok (st.dirTable ((st.inodeTable p).find_direct_block 0)) := by
  unfold FSState.find_dir_from_inode
  have hfi : st.find_inode p = .ok (st.inodeTable p) := by
    rw [find_inode_of_bit st p hlen, hbit]
    simp
  rw [hfi]
  dsimp only
  rw [if_neg (by simp [hdir])]
  simp only [FSState.data_block_offsets]
  rw [List.get?_eq_getElem?, List.getElem?_eq_getElem hlen]
  dsimp only
  have hdb : (st.groups[(p - 1) / st.sb.data_blocks_per_group]).has_data_block
      ((st.inodeTable p).find_direct_block 0) = true := by
    unfold Group.has_data_block
    rw [getD_of_getElem?_eq _ _ _ _ (List.getElem?_eq_getElem hlen)] at hdata
    exact hdata
  rw [if_neg (by simp [hdb])]

/-! Transfer of the `release_data_blocks` facts through
`release_indirect_block` and `release_double_indirect_block`. -/

theorem rib_sb_dbpg (st : FSState) (b : Nat) :
    (st.release_indirect_block b).sb.data_blocks_per_group
      = st.sb.data_blocks_per_group := rdb_sb_dbpg st _

theorem rib_sb_block_size (st : FSState) (b : Nat) :
    (st.release_indirect_block b).sb.block_size = st.sb.block_size :=
  rdb_sb_block_size st _

theorem rib_disk (st : FSState) (b : Nat) :
    (st.release_indirect_block b).disk = st.disk := rdb_disk st _

theorem rib_inodeTable (st : FSState) (b : Nat) :
    (st.release_indirect_block b).inodeTable = st.inodeTable := rdb_inodeTable st _

theorem rib_dirTable (st : FSState) (b : Nat) :
    (st.release_indirect_block b).dirTable = st.dirTable := rdb_dirTable st _

theorem rib_groups_length (st : FSState) (b : Nat) :
    (st.release_indirect_block b).groups.length = st.groups.length :=
  rdb_groups_length st _

theorem rib_read_indirect (st : FSState) (b x : Nat) :
    (st.release_indirect_block b).read_indirect_block x = st.read_indirect_block x :=
  rdb_read_indirect st _ x

theorem rib_inodeBit (st : FSState) (b i : Nat) :
    (st.release_indirect_block b).inodeBit i = st.inodeBit i := inodeBit_rdb st _ i

theorem rib_dataBit_mono (st : FSState) (b x : Nat) (h : st.dataBit x = false) :
    (st.release_indirect_block b).dataBit x = false := dataBit_rdb_mono st _ x h

theorem rib_dataBit_mem (st : FSState) (b x : Nat)
    (hx : x ∈ st.read_indirect_block b)
    (hg : (x - 1) / st.sb.data_blocks_per_group < st.groups.length) :
    (st.release_indirect_block b).dataBit x = false := dataBit_rdb_mem st _ x hx hg

theorem rib_dataBit_ne (st : FSState) (b x : Nat)
    (h : ∀ y ∈ st.read_indirect_block b,
      ¬((y - 1) / st.sb.data_blocks_per_group
            = (x - 1) / st.sb.data_blocks_per_group ∧
        (y - 1) &&& (st.sb.data_blocks_per_group - 1)
            = (x - 1) &&& (st.sb.data_blocks_per_group - 1))) :
    (st.release_indirect_block b).dataBit x = st.dataBit x := dataBit_rdb_ne st _ x h

theorem rdbl_sb_dbpg (st : FSState) (b : Nat) :
    (st.release_double_indirect_block b).sb.data_blocks_per_group
      = st.sb.data_blocks_per_group := by
  unfold FSState.release_double_indirect_block
  rw [rdb_sb_dbpg, rdb_sb_dbpg]

theorem rdbl_sb_block_size (st : FSState) (b : Nat) :
    (st.release_double_indirect_block b).sb.block_size = st.sb.block_size := by
  unfold FSState.release_double_indirect_block
  rw [rdb_sb_block_size, rdb_sb_block_size]

theorem rdbl_disk (st : FSState) (b : Nat) :
    (st.release_double_indirect_block b).disk = st.disk := by
  unfold FSState.release_double_indirect_block
  rw [rdb_disk, rdb_disk]

theorem rdbl_inodeTable (st : FSState) (b : Nat) :
    (st.release_double_indirect_block b).inodeTable = st.inodeTable := by
  unfold FSState.release_double_indirect_block
  rw [rdb_inodeTable, rdb_inodeTable]

theorem rdbl_dirTable (st : FSState) (b : Nat) :
    (st.release_double_indirect_block b).dirTable = st.dirTable := by
  unfold FSState.release_double_indirect_block
  rw [rdb_dirTable, rdb_dirTable]

theorem rdbl_groups_length (st : FSState) (b : Nat) :
    (st.release_double_indirect_block b).groups.length = st.groups.length := by
  unfold FSState.release_double_indirect_block
  rw [rdb_groups_length, rdb_groups_length]

theorem rdbl_inodeBit (st : FSState) (b i : Nat) :
    (st.release_double_indirect_block b).inodeBit i = st.inodeBit i := by
  unfold FSState.release_double_indirect_block
  rw [inodeBit_rdb, inodeBit_rdb]

theorem rdbl_dataBit_mono (st : FSState) (b x : Nat) (h : st.dataBit x = false) :
    (st.release_double_indirect_block b).dataBit x = false := by
  unfold FSState.release_double_indirect_block
  exact dataBit_rdb_mono _ _ _ (dataBit_rdb_mono _ _ _ h)

theorem rdbl_dataBit_mem_inner (st : FSState) (b x : Nat)
    (hx : x ∈ st.read_indirect_block b)
    (hg : (x - 1) / st.sb.data_blocks_per_group < st.groups.length) :
    (st.release_double_indirect_block b).dataBit x = false := by
  unfold FSState.release_double_indirect_block
  exact dataBit_rdb_mono _ _ _ (dataBit_rdb_mem st _ x hx hg)

theorem rdbl_dataBit_mem_leaf (st : FSState) (b x : Nat)
    (hx : x ∈ ((st.read_indirect_block b).filter (· ≠ 0)).flatMap
        st.read_indirect_block)
    (hg : (x - 1) / st.sb.data_blocks_per_group < st.groups.length) :
    (st.release_double_indirect_block b).dataBit x = false := by
  unfold FSState.release_double_indirect_block
  refine dataBit_rdb_mem _ _ x hx ?_
  rw [rdb_sb_dbpg, rdb_groups_length]
  exact hg

theorem rdbl_dataBit_ne (st : FSState) (b x : Nat)
    (h1 : ∀ y ∈ st.read_indirect_block b,
      ¬((y - 1) / st.sb.data_blocks_per_group
            = (x - 1) / st.sb.data_blocks_per_group ∧
        (y - 1) &&& (st.sb.data_blocks_per_group - 1)
            = (x - 1) &&& (st.sb.data_blocks_per_group - 1)))
    (h2 : ∀ y ∈ ((st.read_indirect_block b).filter (· ≠ 0)).flatMap
        st.read_indirect_block,
      ¬((y - 1) / st.sb.data_blocks_per_group
            = (x - 1) / st.sb.data_blocks_per_group ∧
        (y - 1) &&& (st.sb.data_blocks_per_group - 1)
            = (x - 1) &&& (st.sb.data_blocks_per_group - 1))) :
    (st.release_double_indirect_block b).dataBit x = st.dataBit x := by
  unfold FSState.release_double_indirect_block
  rw [dataBit_rdb_ne, dataBit_rdb_ne]
  · exact h1
  · intro y hy
    rw [rdb_sb_dbpg]
    exact h2 y hy

end UnlinkFacts

namespace UnlinkFacts

theorem update_modified_at_fdb (i : Inode) (t : SysTime) (k : Nat) :
    (i.update_modified_at t).find_direct_block k = i.find_direct_block k := rfl

theorem update_modified_at_is_dir (i : Inode) (t : SysTime) :
    (i.update_modified_at t).is_dir = i.is_dir := rfl

theorem dataBit_eq_raw (st : FSState) (m p b : Nat)
    (hD : st.sb.data_blocks_per_group = 2 ^ m)
    (hp : p - 1 < 2 ^ m) (hb : b - 1 < 2 ^ m) :
    st.dataBit b
      = (st.groups.getD ((p - 1) / st.sb.data_blocks_per_group)
            ⟨[], [], none, none⟩).data_bitmap.getD (b - 1) false := by
  unfold FSState.dataBit
  rw [hD, Nat.div_eq_of_lt hp, Nat.div_eq_of_lt hb, mask_eq_self m _ hb]

/-! Transfer through the whole release sequence of `unlink`. -/

theorem stage_sb_dbpg (st : FSState) (inode : Inode) :
    (st.unlink_release_stage inode).sb.data_blocks_per_group
      = st.sb.data_blocks_per_group := by
  unfold FSState.unlink_release_stage
  dsimp only
  split
  · rw [rdbl_sb_dbpg]
    split
    · rw [rib_sb_dbpg, rdb_sb_dbpg]
    · rw [rdb_sb_dbpg]
  · split
    · rw [rib_sb_dbpg, rdb_sb_dbpg]
    · rw [rdb_sb_dbpg]

theorem stage_groups_length (st : FSState) (inode : Inode) :
    (st.unlink_release_stage inode).groups.length = st.groups.length := by
  unfold FSState.unlink_release_stage
  dsimp only
  split
  · rw [rdbl_groups_length]
    split
    · rw [rib_groups_length, rdb_groups_length]
    · rw [rdb_groups_length]
  · split
    · rw [rib_groups_length, rdb_groups_length]
    · rw [rdb_groups_length]

theorem stage_inodeTable (st : FSState) (inode : Inode) :
    (st.unlink_release_stage inode).inodeTable = st.inodeTable := by
  unfold FSState.unlink_release_stage
  dsimp only
  split
  · rw [rdbl_inodeTable]
    split
    · rw [rib_inodeTable, rdb_inodeTable]
    · rw [rdb_inodeTable]
  · split
    · rw [rib_inodeTable, rdb_inodeTable]
    · rw [rdb_inodeTable]

theorem stage_dirTable (st : FSState) (inode : Inode) :
    (st.unlink_release_stage inode).dirTable = st.dirTable := by
  unfold FSState.unlink_release_stage
  dsimp only
  split
  · rw [rdbl_dirTable]
    split
    · rw [rib_dirTable, rdb_dirTable]
    · rw [rdb_dirTable]
  · split
    · rw [rib_dirTable, rdb_dirTable]
    · rw [rdb_dirTable]

theorem stage_inodeBit (st : FSState) (inode : Inode) (j : Nat) :
    (st.unlink_release_stage inode).inodeBit j = st.inodeBit j := by
  unfold FSState.unlink_release_stage
  dsimp only
  split
  · rw [rdbl_inodeBit]
    split
    · rw [rib_inodeBit, inodeBit_rdb]
    · rw [inodeBit_rdb]
  · split
    · rw [rib_inodeBit, inodeBit_rdb]
    · rw [inodeBit_rdb]

theorem stage_dataBit_direct (st : FSState) (inode : Inode) (b : Nat)
    (hb : b ∈ inode.direct_blocks_nonzero)
    (hg : (b - 1) / st.sb.data_blocks_per_group < st.groups.length) :
    (st.unlink_release_stage inode).dataBit b = false := by
  unfold FSState.unlink_release_stage
  dsimp only
  have hA : (st.release_data_blocks inode.direct_blocks_nonzero).dataBit b = false :=
    dataBit_rdb_mem st _ b hb hg
  by_cases h1 : inode.indirect_block ≠ 0 <;>
    by_cases h2 : inode.double_indirect_block ≠ 0
  · rw [if_pos h2, if_pos h1]
    exact rdbl_dataBit_mono _ _ _ (rib_dataBit_mono _ _ _ hA)
  · rw [if_neg h2, if_pos h1]
    exact rib_dataBit_mono _ _ _ hA
  · rw [if_pos h2, if_neg h1]
    exact rdbl_dataBit_mono _ _ _ hA
  · rw [if_neg h2, if_neg h1]
    exact hA

theorem stage_dataBit_ind_mem (st : FSState) (inode : Inode) (b : Nat)
    (hc1 : inode.indirect_block ≠ 0)
    (hb : b ∈ st.read_indirect_block inode.indirect_block)
    (hg : (b - 1) / st.sb.data_blocks_per_group < st.groups.length) :
    (st.unlink_release_stage inode).dataBit b = false := by
  unfold FSState.unlink_release_stage
  dsimp only
  have hB : ((st.release_data_blocks
        inode.direct_blocks_nonzero).release_indirect_block
          inode.indirect_block).dataBit b = false := by
    refine rib_dataBit_mem _ _ b ?_ ?_
    · rw [rdb_read_indirect]
      exact hb
    · rw [rdb_sb_dbpg, rdb_groups_length]
      exact hg
  by_cases h2 : inode.double_indirect_block ≠ 0
  · rw [if_pos h2, if_pos hc1]
    exact rdbl_dataBit_mono _ _ _ hB
  · rw [if_neg h2, if_pos hc1]
    exact hB

end UnlinkFacts

namespace UnlinkFacts

theorem mem_unlinkReleased_direct (st : FSState) (inode : Inode) (b : Nat)
    (hb : b ∈ inode.direct_blocks_nonzero) : b ∈ unlinkReleased st inode := by
  unfold unlinkReleased
  exact List.mem_append.mpr (Or.inl (List.mem_append.mpr (Or.inl hb)))

theorem mem_unlinkReleased_ind (st : FSState) (inode : Inode) (b : Nat)
    (hc1 : inode.indirect_block ≠ 0)
    (hb : b ∈ st.read_indirect_block inode.indirect_block) :
    b ∈ unlinkReleased st inode := by
  unfold unlinkReleased
  refine List.mem_append.mpr (Or.inl (List.mem_append.mpr (Or.inr ?_)))
  rw [if_pos hc1]
  exact hb

theorem mem_unlinkReleased_dbl_inner (st : FSState) (inode : Inode) (b : Nat)
    (hc2 : inode.double_indirect_block ≠ 0)
    (hb : b ∈ st.read_indirect_block inode.double_indirect_block) :
    b ∈ unlinkReleased st inode := by
  unfold unlinkReleased
  refine List.mem_append.mpr (Or.inr ?_)
  rw [if_pos hc2]
  exact List.mem_append.mpr (Or.inl hb)

theorem mem_unlinkReleased_dbl_leaf (st : FSState) (inode : Inode) (b : Nat)
    (hc2 : inode.double_indirect_block ≠ 0)
    (hb : b ∈ ((st.read_indirect_block inode.double_indirect_block).filter
        (· ≠ 0)).flatMap st.read_indirect_block) :
    b ∈ unlinkReleased st inode := by
  unfold unlinkReleased
  refine List.mem_append.mpr (Or.inr ?_)
  rw [if_pos hc2]
  exact List.mem_append.mpr (Or.inr hb)

theorem stage_dataBit_dbl_inner (st : FSState) (inode : Inode) (b : Nat)
    (hc2 : inode.double_indirect_block ≠ 0)
    (hb : b ∈ st.read_indirect_block inode.double_indirect_block)
    (hg : (b - 1) / st.sb.data_blocks_per_group < st.groups.length) :
    (st.unlink_release_stage inode).dataBit b = false := by
  unfold FSState.unlink_release_stage
  dsimp only
  by_cases h1 : inode.indirect_block ≠ 0
  · rw [if_pos hc2, if_pos h1]
    refine rdbl_dataBit_mem_inner _ _ b ?_ ?_
    · rw [rib_read_indirect, rdb_read_indirect]
      exact hb
    · rw [rib_sb_dbpg, rib_groups_length, rdb_sb_dbpg, rdb_groups_length]
      exact hg
  · rw [if_pos hc2, if_neg h1]
    refine rdbl_dataBit_mem_inner _ _ b ?_ ?_
    · rw [rdb_read_indirect]
      exact hb
    · rw [rdb_sb_dbpg, rdb_groups_length]
      exact hg

theorem stage_dataBit_dbl_leaf (st : FSState) (inode : Inode) (b : Nat)
    (hc2 : inode.double_indirect_block ≠ 0)
    (hb : b ∈ ((st.read_indirect_block inode.double_indirect_block).filter
        (· ≠ 0)).flatMap st.read_indirect_block)
    (hg : (b - 1) / st.sb.data_blocks_per_group < st.groups.length) :
    (st.unlink_release_stage inode).dataBit b = false := by
  unfold FSState.unlink_release_stage
  dsimp only
  by_cases h1 : inode.indirect_block ≠ 0
  · rw [if_pos hc2, if_pos h1]
    have hfun : ((st.release_data_blocks
          inode.direct_blocks_nonzero).release_indirect_block
            inode.indirect_block).read_indirect_block
        = st.read_indirect_block := by
      funext z
      rw [rib_read_indirect, rdb_read_indirect]
    refine rdbl_dataBit_mem_leaf _ _ b ?_ ?_
    · rw [hfun]
      exact hb
    · rw [rib_sb_dbpg, rib_groups_length, rdb_sb_dbpg, rdb_groups_length]
      exact hg
  · rw [if_pos hc2, if_neg h1]
    have hfun : ((st.release_data_blocks
          inode.direct_blocks_nonzero)).read_indirect_block
        = st.read_indirect_block := by
      funext z
      rw [rdb_read_indirect]
    refine rdbl_dataBit_mem_leaf _ _ b ?_ ?_
    · rw [hfun]
      exact hb
    · rw [rdb_sb_dbpg, rdb_groups_length]
      exact hg

theorem stage_dataBit_notrel (st : FSState) (inode : Inode) (m x : Nat)
    (hD : st.sb.data_blocks_per_group = 2 ^ m)
    (hrel : ∀ b ∈ unlinkReleased st inode, 1 ≤ b ∧ b - 1 < 2 ^ m)
    (hx1 : 1 ≤ x)
    (hxn : x ∉ unlinkReleased st inode) :
    (st.unlink_release_stage inode).dataBit x = st.dataBit x := by
  have hpos : ∀ y ∈ unlinkReleased st inode,
      ¬((y - 1) / st.sb.data_blocks_per_group
            = (x - 1) / st.sb.data_blocks_per_group ∧
        (y - 1) &&& (st.sb.data_blocks_per_group - 1)
            = (x - 1) &&& (st.sb.data_blocks_per_group - 1)) := by
    intro y hy
    obtain ⟨hy1, hym⟩ := hrel y hy
    have hyx : y ≠ x := fun he => hxn (he ▸ hy)
    rw [hD]
    exact pos_ne_of_mask m y x hy1 hym hx1 hyx
  unfold FSState.unlink_release_stage
  dsimp only
  have hA : (st.release_data_blocks inode.direct_blocks_nonzero).dataBit x
      = st.dataBit x := by
    refine dataBit_rdb_ne st _ x ?_
    intro y hy
    exact hpos y (mem_unlinkReleased_direct st inode y hy)
  by_cases h1 : inode.indirect_block ≠ 0 <;>
    by_cases h2 : inode.double_indirect_block ≠ 0
  · rw [if_pos h2, if_pos h1]
    have hB : ((st.release_data_blocks
          inode.direct_blocks_nonzero).release_indirect_block
            inode.indirect_block).dataBit x = st.dataBit x := by
      refine Eq.trans (rib_dataBit_ne _ _ x ?_) hA
      intro y hy
      rw [rdb_read_indirect] at hy
      rw [rdb_sb_dbpg]
      exact hpos y (mem_unlinkReleased_ind st inode y h1 hy)
    refine Eq.trans (rdbl_dataBit_ne _ _ x ?_ ?_) hB
    · intro y hy
      rw [rib_read_indirect, rdb_read_indirect] at hy
      rw [rib_sb_dbpg, rdb_sb_dbpg]
      exact hpos y (mem_unlinkReleased_dbl_inner st inode y h2 hy)
    · intro y hy
      have hfun : ((st.release_data_blocks
            inode.direct_blocks_nonzero).release_indirect_block
              inode.indirect_block).read_indirect_block
          = st.read_indirect_block := by
        funext z
        rw [rib_read_indirect, rdb_read_indirect]
      rw [hfun] at hy
      rw [rib_sb_dbpg, rdb_sb_dbpg]
      exact hpos y (mem_unlinkReleased_dbl_leaf st inode y h2 hy)
  · rw [if_neg h2, if_pos h1]
    refine Eq.trans (rib_dataBit_ne _ _ x ?_) hA
    intro y hy
    rw [rdb_read_indirect] at hy
    rw [rdb_sb_dbpg]
    exact hpos y (mem_unlinkReleased_ind st inode y h1 hy)
  · rw [if_pos h2, if_neg h1]
    refine Eq.trans (rdbl_dataBit_ne _ _ x ?_ ?_) hA
    · intro y hy
      rw [rdb_read_indirect] at hy
      rw [rdb_sb_dbpg]
      exact hpos y (mem_unlinkReleased_dbl_inner st inode y h2 hy)
    · intro y hy
      have hfun : ((st.release_data_blocks
            inode.direct_blocks_nonzero)).read_indirect_block
          = st.read_indirect_block := by
        funext z
        rw [rdb_read_indirect]
      rw [hfun] at hy
      rw [rdb_sb_dbpg]
      exact hpos y (mem_unlinkReleased_dbl_leaf st inode y h2 hy)
  · rw [if_neg h2, if_neg h1]
    exact hA

end UnlinkFacts

/-- **C3** (amended).  A successful `unlink(parent, name)` that removes the
entry for inode `index`: the persisted parent directory lands at the
data-block position indexed by the parent's *inode number*, so with
`parent.direct_blocks[0] = parent` a subsequent `lookup(parent, name)`
replies `ENOENT`; every nonzero direct block of the target is released; when
`indirect_block ≠ 0` every pointer stored in it is released but the indirect
block's own bitmap bit is left unchanged (it is *not* released); likewise
for a nonzero `double_indirect_block` the inner indirect blocks and their
leaves are released while the double-indirect block's own bit is unchanged;
the target inode is released; and a missing entry replies `ENOENT` with the
state returned untouched.  (Single-group in-range hypotheses; blocks named
by the claim are assumed distinct from the released ones and the parent not
among them.) -/
theorem claim_C3 (st : FSState) (now : SysTime) (parent : Nat) (name : Name)
    (m : Nat) (pdir : Directory) (index : Nat) (entries' : List (Name × Nat))
    (inode : Inode) (st' : FSState)
    (hdbpg : st.sb.data_blocks_per_group = 2 ^ m)
    (hpd : st.find_dir_from_inode parent = .ok pdir)
    (hrm : btRemove pdir.entries name = (some index, entries'))
    (hfi : st.find_inode index = .ok inode)
    (hnodup : (pdir.entries.map Prod.fst).Nodup)
    (hp1 : 1 ≤ parent) (hpm : parent - 1 < 2 ^ m)
    (hi1 : 1 ≤ index) (him : index - 1 < 2 ^ m)
    (hne : index ≠ parent)
    (hrel : ∀ b ∈ unlinkReleased st inode, 1 ≤ b ∧ b - 1 < 2 ^ m)
    (hblk : (st.inodeTable parent).find_direct_block 0 = parent)
    (hpnr : parent ∉ unlinkReleased st inode)
    (hinr : inode.indirect_block ∉ unlinkReleased st inode)
    (hdnr : inode.double_indirect_block ∉ unlinkReleased st inode)
    (h : st.unlink_op now parent name = (st', .ok ())) :
    st'.lookup_op parent name = .error .ENOENT ∧
      (∀ b ∈ inode.direct_blocks_nonzero, st'.dataBit b = false) ∧
      (inode.indirect_block ≠ 0 →
        (∀ b ∈ st.read_indirect_block inode.indirect_block,
            st'.dataBit b = false) ∧
          st'.dataBit inode.indirect_block = st.dataBit inode.indirect_block) ∧
      (inode.double_indirect_block ≠ 0 →
        (∀ b ∈ st.read_indirect_block inode.double_indirect_block,
            st'.dataBit b = false) ∧
          (∀ b ∈ ((st.read_indirect_block inode.double_indirect_block).filter
              (· ≠ 0)).flatMap st.read_indirect_block, st'.dataBit b = false) ∧
          st'.dataBit inode.double_indirect_block
            = st.dataBit inode.double_indirect_block) ∧
      st'.find_inode index = .error .ENOENT ∧
      (∀ nm, btGet pdir.entries nm = none →
        st.unlink_op now parent nm = (st, .error .ENOENT)) := by
  obtain ⟨hpbit, hplen, hpisdir, hpdata, hpdirEq⟩ :=
    UnlinkFacts.find_dir_ok_inv st parent pdir hpd
  have hgl : 0 < st.groups.length := Nat.lt_of_le_of_lt (Nat.zero_le _) hplen
  unfold FSState.unlink_op at h
  rw [hpd] at h
  dsimp only at h
  rw [hrm] at h
  dsimp only at h
  rw [hfi] at h
  dsimp only at h
  cases hsd : (st.unlink_release_stage inode).save_dir now
      { pdir with entries := entries' } parent with
  | error e =>
    rw [hsd] at h
    dsimp only at h
    injection h with h1 h2
    cases h2
  | ok st2 =>
    rw [hsd] at h
    dsimp only at h
    injection h with h1 h2
    have hst2 := UnlinkFacts.save_dir_ok_inv _ now _ parent st2 hsd
    -- transferred facts about the release stage
    have hCD : (st.unlink_release_stage inode).sb.data_blocks_per_group
        = st.sb.data_blocks_per_group := UnlinkFacts.stage_sb_dbpg st inode
    have hClen : (st.unlink_release_stage inode).groups.length
        = st.groups.length := UnlinkFacts.stage_groups_length st inode
    have hCit : (st.unlink_release_stage inode).inodeTable = st.inodeTable :=
      UnlinkFacts.stage_inodeTable st inode
    have hCdt : (st.unlink_release_stage inode).dirTable = st.dirTable :=
      UnlinkFacts.stage_dirTable st inode
    -- and about the state `save_dir` returned
    have h2sb : st2.sb = (st.unlink_release_stage inode).sb := by rw [hst2]
    have h2g : st2.groups = (st.unlink_release_stage inode).groups := by
      rw [hst2]
    have h2it : st2.inodeTable
        = updF (st.unlink_release_stage inode).inodeTable parent
            (((st.unlink_release_stage inode).inodeTable parent).update_modified_at
              now) := by rw [hst2]
    have h2dt : st2.dirTable
        = updF (st.unlink_release_stage inode).dirTable parent
            { pdir with entries := entries' } := by rw [hst2]
    have h2db : ∀ b, st2.dataBit b = (st.unlink_release_stage inode).dataBit b := by
      intro b
      rw [hst2]
      rfl
    have h2ib : ∀ j, st2.inodeBit j = (st.unlink_release_stage inode).inodeBit j := by
      intro j
      rw [hst2]
      rfl
    have h2D : st2.sb.data_blocks_per_group = st.sb.data_blocks_per_group := by
      rw [h2sb, hCD]
    have h2len : st2.groups.length = st.groups.length := by rw [h2g, hClen]
    -- facts about the final state
    have hfD : (st2.release_inode index).sb.data_blocks_per_group
        = st.sb.data_blocks_per_group := by
      rw [UnlinkFacts.release_inode_sb_dbpg, h2D]
    have hflen : (st2.release_inode index).groups.length = st.groups.length := by
      rw [UnlinkFacts.release_inode_groups_length, h2len]
    have hfdb : ∀ b, (st2.release_inode index).dataBit b
        = (st.unlink_release_stage inode).dataBit b := by
      intro b
      rw [UnlinkFacts.dataBit_release_inode, h2db]
    have hstp : st.dataBit parent = true := by
      rw [UnlinkFacts.dataBit_eq_raw st m parent parent hdbpg hpm hpm]
      rw [hblk] at hpdata
      exact hpdata
    have hgrange : ∀ b ∈ unlinkReleased st inode,
        (b - 1) / st.sb.data_blocks_per_group < st.groups.length := by
      intro b hb
      rw [hdbpg, Nat.div_eq_of_lt (hrel b hb).2]
      exact hgl
    subst h1
    refine ⟨?_, ?_, ?_, ?_, ?_, ?_⟩
    · -- lookup now misses the removed name
      have hit' : (st2.release_inode index).inodeTable = st2.inodeTable :=
        UnlinkFacts.release_inode_inodeTable st2 index
      have hfdb0 : ((st2.release_inode index).inodeTable parent).find_direct_block 0
          = parent := by
        rw [hit', h2it]
        have hupd : updF (st.unlink_release_stage inode).inodeTable parent
            (((st.unlink_release_stage inode).inodeTable parent).update_modified_at
              now) parent
            = ((st.unlink_release_stage inode).inodeTable
                parent).update_modified_at now := by
          unfold updF
          rw [if_pos rfl]
        rw [hupd, UnlinkFacts.update_modified_at_fdb, hCit]
        exact hblk
      have hlen' : (parent - 1) / (st2.release_inode index).sb.data_blocks_per_group
          < (st2.release_inode index).groups.length := by
        rw [hfD, hflen]
        exact hplen
      have hbit' : (st2.release_inode index).inodeBit parent = true := by
        rw [UnlinkFacts.inodeBit_release_inode_ne st2 index parent
          (fun hc => by omega), h2ib, UnlinkFacts.stage_inodeBit]
        exact hpbit
      have hdir' : ((st2.release_inode index).inodeTable parent).is_dir = true := by
        rw [hit', h2it]
        have hupd : updF (st.unlink_release_stage inode).inodeTable parent
            (((st.unlink_release_stage inode).inodeTable parent).update_modified_at
              now) parent
            = ((st.unlink_release_stage inode).inodeTable
                parent).update_modified_at now := by
          unfold updF
          rw [if_pos rfl]
        rw [hupd, UnlinkFacts.update_modified_at_is_dir, hCit]
        exact hpisdir
      have hdata' : ((st2.release_inode index).groups.getD
            ((parent - 1) / (st2.release_inode index).sb.data_blocks_per_group)
            ⟨[], [], none, none⟩).data_bitmap.getD
          (((st2.release_inode index).inodeTable parent).find_direct_block 0 - 1)
            false = true := by
        rw [hfdb0]
        rw [← UnlinkFacts.dataBit_eq_raw (st2.release_inode index) m parent parent
          (by rw [hfD, hdbpg]) hpm hpm]
        rw [hfdb parent,
          UnlinkFacts.stage_dataBit_notrel st inode m parent hdbpg hrel hp1 hpnr]
        exact hstp
      have hfd := UnlinkFacts.find_dir_ok_of (st2.release_inode index) parent
        hlen' hbit' hdir' hdata'
      rw [hfdb0] at hfd
      have hdt' : (st2.release_inode index).dirTable parent
          = { pdir with entries := entries' } := by
        rw [UnlinkFacts.release_inode_dirTable, h2dt]
        unfold updF
        rw [if_pos rfl]
      rw [hdt'] at hfd
      unfold FSState.lookup_op
      rw [hfd]
      dsimp only
      have hentry : Directory.entry { pdir with entries := entries' } name
          = .error .ENOENT := by
        unfold Directory.entry
        dsimp only
        rw [UnlinkFacts.btGet_btRemove_none pdir.entries name hnodup index
          entries' hrm]
      rw [hentry]
    · -- direct blocks are released
      intro b hb
      rw [hfdb b]
      exact UnlinkFacts.stage_dataBit_direct st inode b hb
        (hgrange b (UnlinkFacts.mem_unlinkReleased_direct st inode b hb))
    · -- indirect pointers released, the indirect block's bit unchanged
      intro hc1
      constructor
      · intro b hb
        rw [hfdb b]
        exact UnlinkFacts.stage_dataBit_ind_mem st inode b hc1 hb
          (hgrange b (UnlinkFacts.mem_unlinkReleased_ind st inode b hc1 hb))
      · rw [hfdb]
        exact UnlinkFacts.stage_dataBit_notrel st inode m inode.indirect_block
          hdbpg hrel (Nat.one_le_iff_ne_zero.mpr hc1) hinr
    · -- double-indirect chain released, its own bit unchanged
      intro hc2
      refine ⟨?_, ?_, ?_⟩
      · intro b hb
        rw [hfdb b]
        exact UnlinkFacts.stage_dataBit_dbl_inner st inode b hc2 hb
          (hgrange b (UnlinkFacts.mem_unlinkReleased_dbl_inner st inode b hc2 hb))
      · intro b hb
        rw [hfdb b]
        exact UnlinkFacts.stage_dataBit_dbl_leaf st inode b hc2 hb
          (hgrange b (UnlinkFacts.mem_unlinkReleased_dbl_leaf st inode b hc2 hb))
      · rw [hfdb]
        exact UnlinkFacts.stage_dataBit_notrel st inode m
          inode.double_indirect_block hdbpg hrel
          (Nat.one_le_iff_ne_zero.mpr hc2) hdnr
    · -- the target inode is gone
      have hlen5 : (index - 1) / (st2.release_inode index).sb.data_blocks_per_group
          < (st2.release_inode index).groups.length := by
        rw [hfD, hflen, hdbpg, Nat.div_eq_of_lt him]
        exact hgl
      rw [UnlinkFacts.find_inode_of_bit _ index hlen5]
      have hbit0 : (st2.release_inode index).inodeBit index = false := by
        refine UnlinkFacts.inodeBit_release_inode_self st2 index ?_
        rw [h2D, h2len, hdbpg, Nat.div_eq_of_lt him]
        exact hgl
      rw [hbit0]
      simp
    · -- a missing name replies ENOENT without touching the state
      intro nm hnone
      unfold FSState.unlink_op
      rw [hpd]
      dsimp only
      rw [UnlinkFacts.btRemove_of_btGet_none pdir.entries nm hnone]

/-- **C3** witness: the amended theorem applied to `c3State` (unlinking "a",
inode 2): the lookup then misses and the inode is gone. -/
theorem claim_C3_witness :
    ((FSState.unlink_op c3State ⟨0, 0⟩ 1 [97]).1).lookup_op 1 [97]
        = .error .ENOENT ∧
      ((FSState.unlink_op c3State ⟨0, 0⟩ 1 [97]).1).find_inode 2
        = .error .ENOENT := by
  obtain ⟨h1, _, _, _, h5, _⟩ :=
    claim_C3 c3State ⟨0, 0⟩ 1 [97] 6 ⟨[([97], 2)], 0⟩ 2 []
      (c3State.inodeTable 2) (FSState.unlink_op c3State ⟨0, 0⟩ 1 [97]).1
      (by decide) rfl rfl rfl (by decide) (by decide) (by decide) (by decide)
      (by decide) (by decide) (by decide) rfl (by decide) (by decide)
      (by decide) (Prod.ext_iff.mpr ⟨rfl, rfl⟩)
  exact ⟨h1, h5⟩

/-- **C10** (confirmed).  `create` allocates the inode *before* resolving the
parent; when the parent fails to resolve the reply is that error and the
post-state is exactly the post-allocation state: the superblock's
`free_inodes` stays one below its old value and the allocated index's bitmap
bit stays set — nothing is rolled back.  (Single-group state with an
accurate cache.) -/
theorem claim_C10 (st stA : FSState) (now : SysTime) (parent : Nat)
    (name : Name) (mode index : Nat) (e : FSErr)
    (hglen : st.groups.length = 1)
    (hacc : (st.groups.getD 0 ⟨[], [], none, none⟩).cacheAccurate)
    (hpos : 0 < st.sb.free_inodes)
    (ha : st.allocate_inode = (some index, stA))
    (he : stA.find_dir_from_inode parent = .error e) :
    st.create_op now parent name mode = (stA, .error e) ∧
      stA.sb.free_inodes + 1 = st.sb.free_inodes ∧
      (stA.groups.getD 0 ⟨[], [], none, none⟩).has_inode index = true := by
  have ha' := ha
  have hcreate : st.create_op now parent name mode = (stA, .error e) := by
    unfold FSState.create_op
    rw [ha']
    dsimp only
    rw [he]
  refine ⟨hcreate, ?_, ?_⟩ <;>
    [skip; skip] <;> clear hcreate
  all_goals
    unfold FSState.allocate_inode at ha
  all_goals
    cases hf : st.groups.findIdx? (fun g => decide (0 < g.free_inodes)) with
    | none =>
      rw [hf] at ha
      exact absurd (congrArg Prod.fst ha) (by simp)
    | some gi =>
      rw [hf] at ha
      dsimp only at ha
      cases hgg : st.groups.get? gi with
      | none =>
        rw [hgg] at ha
        dsimp only at ha
        exact absurd (congrArg Prod.fst ha) (by simp)
      | some g =>
        rw [hgg] at ha
        dsimp only at ha
        cases hr : g.allocate_inode with
        | mk o g' =>
          rw [hr] at ha
          dsimp only at ha
          cases o with
          | none =>
            exact absurd (congrArg Prod.fst ha) (by simp)
          | some i2 =>
            dsimp only at ha
            injection ha with h1 h2
            injection h1 with h1
            rw [List.get?_eq_getElem?] at hgg
            have hgi0 : gi = 0 := by
              have := (List.getElem?_eq_some.mp hgg).1
              omega
            subst hgi0
            have hgeq : st.groups.getD 0 ⟨[], [], none, none⟩ = g :=
              UnlinkFacts.getD_of_getElem?_eq _ _ _ _ hgg
            rw [hgeq] at hacc
            first
            | -- the free-inode counter
              rw [← h2]
              show st.sb.free_inodes - 1 + 1 = st.sb.free_inodes
              omega
            | -- the bitmap bit of the allocated index
              rw [← h2]
              have hbit := (GroupFacts.allocate_inode_some g hacc i2 g' hr).2
              have hgetD : (st.groups.set 0 g').getD 0 ⟨[], [], none, none⟩ = g' := by
                refine UnlinkFacts.getD_of_getElem?_eq _ _ _ _ ?_
                rw [List.getElem?_set_self]
                omega
              dsimp only
              rw [hgetD, ← h1]
              simpa [Nat.zero_mul] using hbit

/-- **C10** witness: in `c3State`, creating "b" under the unresolvable
parent 5 replies `ENOENT` while the freshly allocated inode 3 stays
allocated. -/
theorem claim_C10_witness :
    FSState.create_op c3State ⟨0, 0⟩ 5 [98] 0
        = ((c3State.allocate_inode).2, .error .ENOENT) ∧
      ((c3State.allocate_inode).2).sb.free_inodes + 1 = c3State.sb.free_inodes ∧
      (((c3State.allocate_inode).2).groups.getD 0
          ⟨[], [], none, none⟩).has_inode 3 = true :=
  claim_C10 c3State (c3State.allocate_inode).2 ⟨0, 0⟩ 5 [98] 0 3 .ENOENT
    (by decide) ⟨rfl, rfl⟩ (by decide) (Prod.ext_iff.mpr ⟨rfl, rfl⟩) rfl

namespace SortFacts

theorem heapElems_nil : heapElems [] = [] := rfl

theorem heapElems_cons (e : Nat × List Nat) (h : List (Nat × List Nat)) :
    heapElems (e :: h) = (e.1 :: e.2) ++ heapElems h := rfl

theorem heapElems_perm (h1 h2 : List (Nat × List Nat)) (hp : h1.Perm h2) :
    (heapElems h1).Perm (heapElems h2) := by
  unfold heapElems
  exact (hp.map (fun e => e.1 :: e.2)).flatten

theorem readChunk_ok (s B : Nat) (hdvd : s ∣ B) (rem : List Nat) :
    readChunk s B rem = .ok (rem.take (min B (rem.length * s) / s)) := by
  unfold readChunk
  have hdvd2 : s ∣ min B (rem.length * s) := by
    rcases Nat.le_total B (rem.length * s) with hle | hle
    · rw [Nat.min_eq_left hle]
      exact hdvd
    · rw [Nat.min_eq_right hle]
      exact Dvd.intro_left _ rfl
  obtain ⟨k, hk⟩ := hdvd2
  rw [if_pos (by rw [hk]; exact Nat.mul_mod_right s k)]

theorem sortChunksLoop_ok (s B : Nat) (hs : 0 < s) (hdvd : s ∣ B)
    (hB : s ≤ B) :
    ∀ fuel rem, rem.length ≤ fuel →
      ∃ chunks, sortChunksLoop s B fuel rem = .ok chunks ∧
        chunks.flatten.Perm rem ∧
        ∀ c ∈ chunks, List.Sorted (· ≤ ·) c ∧ c ≠ [] := by
  intro fuel
  induction fuel with
  | zero =>
    intro rem hlen
    have hnil : rem = [] := List.eq_nil_of_length_eq_zero (by omega)
    subst hnil
    refine ⟨[], ?_, List.Perm.refl _, by intro c hc; cases hc⟩
    unfold sortChunksLoop
    rw [readChunk_ok s B hdvd]
    simp
  | succ fuel ih =>
    intro rem hlen
    cases hrem : rem with
    | nil =>
      refine ⟨[], ?_, List.Perm.refl _, by intro c hc; cases hc⟩
      unfold sortChunksLoop
      rw [readChunk_ok s B hdvd]
      simp
    | cons r rs =>
      have hlen1 : 1 ≤ rem.length := by rw [hrem]; simp
      have hk1 : 1 ≤ min B (rem.length * s) / s := by
        have hsle : s ≤ min B (rem.length * s) := by
          refine le_min hB ?_
          calc s = 1 * s := (Nat.one_mul s).symm
          _ ≤ rem.length * s := Nat.mul_le_mul_right s hlen1
        exact (Nat.one_le_div_iff hs).mpr hsle
      have hkle : min B (rem.length * s) / s ≤ rem.length := by
        have : min B (rem.length * s) ≤ rem.length * s := Nat.min_le_right _ _
        calc min B (rem.length * s) / s ≤ rem.length * s / s := Nat.div_le_div_right this
        _ = rem.length := Nat.mul_div_cancel _ hs
      rw [← hrem]
      obtain ⟨rest, hrest, hrestperm, hrestall⟩ :=
        ih (rem.drop (rem.take (min B (rem.length * s) / s)).length)
          (by
            rw [List.length_drop, List.length_take]
            omega)
      refine ⟨(rem.take (min B (rem.length * s) / s)).mergeSort
          (fun a b => decide (a ≤ b)) :: rest, ?_, ?_, ?_⟩
      · unfold sortChunksLoop
        rw [readChunk_ok s B hdvd]
        dsimp only
        rw [if_neg (by
          rw [List.isEmpty_iff, ← List.length_eq_zero, List.length_take]
          omega)]
        rw [hrest]
      · rw [List.flatten_cons]
        refine ((List.mergeSort_perm _ _).append hrestperm).trans ?_
        have hlt : (rem.take (min B (rem.length * s) / s)).length
            = min B (rem.length * s) / s := by
          rw [List.length_take]
          omega
        rw [hlt]
        rw [List.take_append_drop]
      · intro c hc
        rcases List.mem_cons.mp hc with rfl | hmem
        · refine ⟨List.sorted_mergeSort' _, ?_⟩
          rw [← List.length_pos_iff_ne_nil, List.length_mergeSort,
            List.length_take]
          omega
        · exact hrestall c hmem

theorem initHeap_ok :
    ∀ chunks : List (List Nat), (∀ c ∈ chunks, List.Sorted (· ≤ ·) c ∧ c ≠ []) →
      ∃ h, initHeap chunks = .ok h ∧ heapElems h = chunks.flatten ∧
        ∀ e ∈ h, List.Sorted (· ≤ ·) (e.1 :: e.2) := by
  intro chunks
  induction chunks with
  | nil => exact fun _ => ⟨[], rfl, rfl, by intro e he; cases he⟩
  | cons c rest ih =>
    intro hall
    cases c with
    | nil => exact absurd rfl (hall [] (List.mem_cons_self _ _)).2
    | cons x xs =>
      obtain ⟨h, hh, helems, hsorted⟩ :=
        ih (fun c hc => hall c (List.mem_cons_of_mem _ hc))
      refine ⟨(x, xs) :: h, ?_, ?_, ?_⟩
      · unfold initHeap
        rw [hh]
      · rw [heapElems_cons, helems, List.flatten_cons]
      · intro e he
        rcases List.mem_cons.mp he with rfl | hmem
        · exact (hall (x :: xs) (List.mem_cons_self _ _)).1
        · exact hsorted e hmem

theorem heapPop_eq_none (h : List (Nat × List Nat)) (hp : heapPop h = none) :
    h = [] := by
  cases h with
  | nil => rfl
  | cons e rest =>
    unfold heapPop at hp
    cases hr : heapPop rest with
    | none => rw [hr] at hp; cases hp
    | some p =>
      rw [hr] at hp
      dsimp only at hp
      split at hp <;> cases hp

theorem heapPop_some :
    ∀ h : List (Nat × List Nat), ∀ e h', heapPop h = some (e, h') →
      (e :: h').Perm h ∧ ∀ x ∈ h', e.1 ≤ x.1 := by
  intro h
  induction h with
  | nil => intro e h' hp; cases hp
  | cons a rest ih =>
    intro e h' hp
    unfold heapPop at hp
    cases hr : heapPop rest with
    | none =>
      rw [hr] at hp
      injection hp with hp
      injection hp with hp1 hp2
      subst hp1
      subst hp2
      have hrest : rest = [] := heapPop_eq_none rest hr
      subst hrest
      exact ⟨List.Perm.refl _, by intro x hx; cases hx⟩
    | some p =>
      obtain ⟨m, rest'⟩ := p
      rw [hr] at hp
      dsimp only at hp
      obtain ⟨hperm, hmin⟩ := ih m rest' hr
      split at hp
      · rename_i hle
        injection hp with hp
        injection hp with hp1 hp2
        subst hp1
        subst hp2
        refine ⟨List.Perm.refl _, ?_⟩
        intro x hx
        have hx2 : x ∈ m :: rest' := hperm.mem_iff.mpr hx
        rcases List.mem_cons.mp hx2 with rfl | hmem
        · exact hle
        · exact le_trans hle (hmin x hmem)
      · rename_i hgt
        injection hp with hp
        injection hp with hp1 hp2
        subst hp1
        subst hp2
        constructor
        · exact (List.Perm.swap a m rest').trans (hperm.cons a)
        · intro x hx
          rcases List.mem_cons.mp hx with rfl | hmem
          · omega
          · exact hmin x hmem

end SortFacts

namespace SortFacts

theorem mergeLoop_ok :
    ∀ fuel heap acc,
      (heapElems heap).length ≤ fuel →
      (∀ e ∈ heap, List.Sorted (· ≤ ·) (e.1 :: e.2)) →
      List.Sorted (· ≤ ·) acc →
      (∀ a ∈ acc, ∀ v ∈ heapElems heap, a ≤ v) →
      ∃ out, mergeLoop fuel heap acc = .ok out ∧
        out.Perm (acc ++ heapElems heap) ∧ List.Sorted (· ≤ ·) out := by
  intro fuel
  induction fuel with
  | zero =>
    intro heap acc hlen hheap hacc hbound
    cases hp : heapPop heap with
    | none =>
      have hnil : heap = [] := heapPop_eq_none heap hp
      subst hnil
      refine ⟨acc, ?_, by simp [heapElems_nil], hacc⟩
      unfold mergeLoop
      rw [hp]
    | some p =>
      obtain ⟨⟨x, src⟩, heap'⟩ := p
      obtain ⟨hperm, _⟩ := heapPop_some heap (x, src) heap' hp
      have hlen2 := (heapElems_perm _ _ hperm).length_eq
      rw [heapElems_cons] at hlen2
      simp at hlen2
      omega
  | succ fuel ih =>
    intro heap acc hlen hheap hacc hbound
    cases hp : heapPop heap with
    | none =>
      have hnil : heap = [] := heapPop_eq_none heap hp
      subst hnil
      refine ⟨acc, ?_, by simp [heapElems_nil], hacc⟩
      unfold mergeLoop
      rw [hp]
    | some p =>
      obtain ⟨⟨x, src⟩, heap'⟩ := p
      obtain ⟨hperm, hmin⟩ := heapPop_some heap (x, src) heap' hp
      have heperm : (heapElems heap).Perm ((x :: src) ++ heapElems heap') := by
        have h2 := heapElems_perm _ _ hperm
        rw [heapElems_cons] at h2
        exact h2.symm
      have hxsrc : List.Sorted (· ≤ ·) (x :: src) :=
        hheap (x, src) (hperm.mem_iff.mp (List.mem_cons_self _ _))
      have hheap' : ∀ e ∈ heap', List.Sorted (· ≤ ·) (e.1 :: e.2) := by
        intro e he
        exact hheap e (hperm.mem_iff.mp (List.mem_cons_of_mem _ he))
      have hxmin : ∀ v ∈ heapElems heap, x ≤ v := by
        intro v hv
        have hv2 : v ∈ (x :: src) ++ heapElems heap' := heperm.mem_iff.mp hv
        rcases List.mem_append.mp hv2 with hv3 | hv3
        · rcases List.mem_cons.mp hv3 with rfl | hmem
          · exact le_refl v
          · exact List.rel_of_sorted_cons hxsrc v hmem
        · rw [heapElems] at hv3
          obtain ⟨l, hl, hvl⟩ := List.mem_flatten.mp hv3
          obtain ⟨e, he, hle⟩ := List.mem_map.mp hl
          subst hle
          have hxe : x ≤ e.1 := hmin e he
          rcases List.mem_cons.mp hvl with rfl | hmem
          · exact hxe
          · exact le_trans hxe (List.rel_of_sorted_cons (hheap' e he) v hmem)
      have haccx : List.Sorted (· ≤ ·) (acc ++ [x]) := by
        rw [List.Sorted, List.pairwise_append]
        refine ⟨hacc, List.pairwise_singleton _ _, ?_⟩
        intro a ha b hb
        rw [List.mem_singleton] at hb
        rw [hb]
        exact hbound a ha x (heperm.mem_iff.mpr (List.mem_append_left _
          (List.mem_cons_self _ _)))
      have hboundx : ∀ a ∈ acc ++ [x], ∀ v ∈ heapElems heap, a ≤ v := by
        intro a ha v hv
        rcases List.mem_append.mp ha with ha2 | ha2
        · exact hbound a ha2 v hv
        · rw [List.mem_singleton] at ha2
          rw [ha2]
          exact hxmin v hv
      cases hsrc : src with
      | nil =>
        have hre : (heapElems heap).Perm (x :: heapElems heap') := by
          rw [hsrc] at heperm
          simpa using heperm
        obtain ⟨out, hout, hop, hos⟩ := ih heap' (acc ++ [x])
          (by
            have h3 := hre.length_eq
            simp at h3
            omega)
          hheap' haccx
          (by
            intro a ha v hv
            exact hboundx a ha v (hre.mem_iff.mpr (List.mem_cons_of_mem _ hv)))
        refine ⟨out, ?_, ?_, hos⟩
        · unfold mergeLoop
          rw [hp]
          dsimp only
          rw [hsrc]
          exact hout
        · refine hop.trans ?_
          rw [List.append_assoc]
          exact List.Perm.append_left acc hre.symm
      | cons y ys =>
        have hre : (heapElems heap).Perm (x :: heapElems ((y, ys) :: heap')) := by
          rw [hsrc] at heperm
          rw [heapElems_cons]
          simpa using heperm
        have hheap2 : ∀ e ∈ (y, ys) :: heap',
            List.Sorted (· ≤ ·) (e.1 :: e.2) := by
          intro e he
          rcases List.mem_cons.mp he with rfl | hmem
          · rw [hsrc] at hxsrc
            exact hxsrc.of_cons
          · exact hheap' e hmem
        obtain ⟨out, hout, hop, hos⟩ := ih ((y, ys) :: heap') (acc ++ [x])
          (by
            have h3 := hre.length_eq
            simp at h3
            omega)
          hheap2 haccx
          (by
            intro a ha v hv
            exact hboundx a ha v (hre.mem_iff.mpr (List.mem_cons_of_mem _ hv)))
        refine ⟨out, ?_, ?_, hos⟩
        · unfold mergeLoop
          rw [hp]
          dsimp only
          rw [hsrc]
          exact hout
        · refine hop.trans ?_
          rw [List.append_assoc]
          exact List.Perm.append_left acc hre.symm

end SortFacts

/-- **C4** (amended).  With an element size dividing the buffer (and
`B ≥ 2·sizeof(T)` as claimed), `ExtSorter::sort` succeeds and the array ends
as a non-decreasing permutation of its input.  (Without the divisibility the
first full buffer read fails `bytemuck`'s cast: see the counterexample.) -/
theorem claim_C4 (s B : Nat) (S : List Nat)
    (hs : 0 < s) (hB : 2 * s ≤ B) (hdvd : s ∣ B) :
    ∃ out, extSorterSort s B S = .ok out ∧ out.Perm S ∧
      List.Sorted (· ≤ ·) out := by
  have hBs : s ≤ B := by omega
  obtain ⟨chunks, hchunks, hflat, hall⟩ :=
    SortFacts.sortChunksLoop_ok s B hs hdvd hBs S.length S (le_refl _)
  obtain ⟨heap, hheap, helems, hsorted⟩ :=
    SortFacts.initHeap_ok chunks hall
  obtain ⟨out, hout, hperm, hsort⟩ :=
    SortFacts.mergeLoop_ok S.length heap []
      (by rw [helems, hflat.length_eq])
      hsorted (List.sorted_nil) (by intro a ha; cases ha)
  refine ⟨out, ?_, ?_, hsort⟩
  · unfold extSorterSort
    rw [hchunks]
    dsimp only
    rw [hheap]
    exact hout
  · refine hperm.trans ?_
    rw [List.nil_append, helems]
    exact hflat

/-- **C4** witness: sorting `[3, 1, 2]` as 2-byte elements through a 4-byte
buffer yields `[1, 2, 3]`. -/
theorem claim_C4_witness :
    ∃ out, extSorterSort 2 4 [3, 1, 2] = .ok out ∧ out.Perm [3, 1, 2] ∧
      List.Sorted (· ≤ ·) out :=
  claim_C4 2 4 [3, 1, 2] (by decide) (by decide) (by decide)

/-- **C4** counterexample: with `sizeof(T) = 2` and `B = 5 ≥ 2·sizeof(T)`,
three elements (6 bytes) make the first read return `min 5 6 = 5` bytes,
which cannot be cast to whole elements — `sort` fails instead of sorting. -/
theorem claim_C4_counterexample :
    2 * 2 ≤ 5 ∧ extSorterSort 2 5 [10, 20, 30] = .error .invalidData :=
  ⟨by decide, rfl⟩

namespace SerFacts

theorem dU16_le (n : Nat) (rest : List Nat) :
    dU16 (u16le n ++ rest) = .ok (n % 65536, rest) := by
  unfold u16le dU16
  simp only [List.cons_append, List.nil_append, Except.ok.injEq, Prod.mk.injEq]
  exact ⟨by omega, trivial⟩

theorem dU32_le (n : Nat) (rest : List Nat) :
    dU32 (u32le n ++ rest) = .ok (n % 4294967296, rest) := by
  unfold u32le dU32
  simp only [List.cons_append, List.nil_append, Except.ok.injEq, Prod.mk.injEq]
  exact ⟨by omega, trivial⟩

theorem dU64_le (n : Nat) (rest : List Nat) :
    dU64 (u64le n ++ rest) = .ok (n % 18446744073709551616, rest) := by
  unfold u64le dU64
  rw [List.append_assoc, dU32_le]
  dsimp only
  rw [dU32_le]
  simp only [Except.ok.injEq, Prod.mk.injEq]
  exact ⟨by omega, trivial⟩

theorem dOpt_none (rest : List Nat) :
    dOptU64 (optU64le none ++ rest) = .ok (none, rest) := rfl

theorem dOpt_some (v : Nat) (rest : List Nat) :
    dOptU64 (optU64le (some v) ++ rest)
      = .ok (some (v % 18446744073709551616), rest) := by
  unfold optU64le
  rw [List.cons_append]
  unfold dOptU64 dU8
  dsimp only
  rw [dU64_le]

theorem dST_le (t : SysTime) (rest : List Nat) :
    dST (sysTimeLe t ++ rest)
      = .ok (⟨t.secs % 18446744073709551616, t.nanos % 4294967296⟩, rest) := by
  unfold sysTimeLe dST
  rw [List.append_assoc, dU64_le]
  dsimp only
  rw [dU32_le]

theorem dBlocks_le :
    ∀ bl rest, (∀ b ∈ bl, b < 4294967296) →
      dBlocks bl.length (blocksLe bl ++ rest) = .ok (bl, rest) := by
  intro bl
  induction bl with
  | nil => intro rest _; rfl
  | cons b bl ih =>
    intro rest hb
    rw [List.length_cons]
    unfold blocksLe
    rw [List.append_assoc]
    unfold dBlocks
    rw [dU32_le]
    dsimp only
    rw [ih rest (fun x hx => hb x (List.mem_cons_of_mem _ hx))]
    dsimp only
    rw [Nat.mod_eq_of_lt (hb b (List.mem_cons_self _ _))]

theorem dName_le (nm : Name) (rest : List Nat)
    (hlen : nm.length < 18446744073709551616) :
    dName (nameLe nm ++ rest) = .ok (nm, rest) := by
  unfold nameLe dName
  rw [List.append_assoc, List.append_assoc, dU32_le]
  simp only [Nat.zero_mod]
  rw [dU64_le]
  dsimp only
  rw [Nat.mod_eq_of_lt hlen]
  unfold dBytes
  rw [if_pos (by rw [List.length_append]; omega)]
  rw [List.take_left, List.drop_left]

theorem dEntries_le :
    ∀ (l : List (Name × Nat)) rest,
      (∀ e ∈ l, e.2 < 4294967296 ∧ e.1.length < 18446744073709551616) →
      dEntries l.length (entriesLe l ++ rest) = .ok (l, rest) := by
  intro l
  induction l with
  | nil => intro rest _; rfl
  | cons e l ih =>
    intro rest he
    obtain ⟨k, v⟩ := e
    rw [List.length_cons]
    unfold entriesLe
    rw [List.append_assoc, List.append_assoc]
    unfold dEntries
    rw [dName_le k _ (he (k, v) (List.mem_cons_self _ _)).2]
    dsimp only
    rw [dU32_le]
    dsimp only
    rw [ih rest (fun x hx => he x (List.mem_cons_of_mem _ hx))]
    dsimp only
    rw [Nat.mod_eq_of_lt (he (k, v) (List.mem_cons_self _ _)).1]

end SerFacts

namespace SerFacts

theorem sbDecode_encode (s : Superblock) (rest : List Nat) (h : sbWf s) :
    sbDecode (sbEncode s ++ rest) = .ok (s, rest) := by
  obtain ⟨magic, block_size, created_at, modified_at, last_mounted_at,
    block_count, inode_count, free_blocks, free_inodes, groups, dbpg, uid,
    gid, checksum⟩ := s
  obtain ⟨h1, h2, h3, h4, h5, h6, h7, h8, h9, h10, h11, h12, h13, h14⟩ := h
  dsimp only at h1 h2 h3 h4 h5 h6 h7 h8 h9 h10 h11 h12 h13 h14
  cases modified_at <;> cases last_mounted_at <;>
    (simp only [Option.getD_some, Option.getD_none] at h4 h5
     simp only [sbEncode, List.append_assoc]
     unfold sbDecode
     rw [dU32_le]
     dsimp only
     rw [dU32_le]
     dsimp only
     rw [dU64_le]
     dsimp only
     first
     | rw [dOpt_none]
     | rw [dOpt_some]
     dsimp only
     first
     | rw [dOpt_none]
     | rw [dOpt_some]
     dsimp only
     rw [dU32_le]
     dsimp only
     rw [dU32_le]
     dsimp only
     rw [dU32_le]
     dsimp only
     rw [dU32_le]
     dsimp only
     rw [dU32_le]
     dsimp only
     rw [dU32_le]
     dsimp only
     rw [dU32_le]
     dsimp only
     rw [dU32_le]
     dsimp only
     rw [dU32_le]
     simp only [Except.ok.injEq, Prod.mk.injEq, Superblock.mk.injEq,
       Option.some.injEq, and_true, true_and]
     all_goals omega)

theorem inodeDecode_encode (i : Inode) (rest : List Nat) (h : inodeWf i) :
    inodeDecode (inodeEncode i ++ rest) = .ok (i, rest) := by
  obtain ⟨mode, hard_links, user_id, group_id, block_count, size, cat, aat,
    mat, chat, direct_blocks, indirect_block, double_indirect_block,
    checksum, block_size⟩ := i
  obtain ⟨cs, cn⟩ := cat
  obtain ⟨as', an⟩ := aat
  obtain ⟨ms, mn⟩ := mat
  obtain ⟨hs', hn⟩ := chat
  obtain ⟨h1, h2, h3, h4, h5, h6, ⟨h7a, h7b⟩, ⟨h8a, h8b⟩, ⟨h9a, h9b⟩,
    ⟨h10a, h10b⟩, h11, h12, h13, h14, h15, h16⟩ := h
  dsimp only at h1 h2 h3 h4 h5 h6 h7a h7b h8a h8b h9a h9b h10a h10b h11 h12
  dsimp only at h13 h14 h15 h16
  simp only [inodeEncode, List.append_assoc]
  unfold inodeDecode
  rw [dU32_le]
  dsimp only
  rw [dU16_le]
  dsimp only
  rw [dU32_le]
  dsimp only
  rw [dU32_le]
  dsimp only
  rw [dU32_le]
  dsimp only
  rw [dU64_le]
  dsimp only
  rw [dST_le]
  dsimp only
  rw [dST_le]
  dsimp only
  rw [dST_le]
  dsimp only
  rw [dST_le]
  dsimp only
  rw [← h11, dBlocks_le direct_blocks _ h12]
  dsimp only
  rw [dU32_le]
  dsimp only
  rw [dU32_le]
  dsimp only
  rw [dU32_le]
  dsimp only
  rw [dU32_le]
  simp only [Except.ok.injEq, Prod.mk.injEq, Inode.mk.injEq,
    SysTime.mk.injEq, and_true, true_and]
  all_goals omega

theorem dirDecode_encode (d : Directory) (rest : List Nat) (h : dirWf d) :
    dirDecode (dirEncode d ++ rest) = .ok (d, rest) := by
  obtain ⟨entries, checksum⟩ := d
  obtain ⟨h1, h2, h3⟩ := h
  dsimp only at h1 h2 h3
  simp only [dirEncode, List.append_assoc]
  unfold dirDecode
  rw [dU64_le]
  dsimp only
  rw [Nat.mod_eq_of_lt h1]
  rw [dEntries_le entries _ (fun e he => ⟨(h2 e he).1, (h2 e he).2.1⟩)]
  dsimp only
  rw [dU32_le]
  simp only [Except.ok.injEq, Prod.mk.injEq, Directory.mk.injEq, and_true,
    true_and]
  all_goals omega

end SerFacts

namespace SerFacts

theorem u16le_bytes (n : Nat) : ∀ b ∈ u16le n, b < 4294967296 := by
  intro b hb
  unfold u16le at hb
  rcases List.mem_cons.mp hb with rfl | hb
  · omega
  · rcases List.mem_cons.mp hb with rfl | hb
    · omega
    · cases hb

theorem u32le_bytes (n : Nat) : ∀ b ∈ u32le n, b < 4294967296 := by
  intro b hb
  unfold u32le at hb
  rcases List.mem_cons.mp hb with rfl | hb
  · omega
  · rcases List.mem_cons.mp hb with rfl | hb
    · omega
    · rcases List.mem_cons.mp hb with rfl | hb
      · omega
      · rcases List.mem_cons.mp hb with rfl | hb
        · omega
        · cases hb

theorem u64le_bytes (n : Nat) : ∀ b ∈ u64le n, b < 4294967296 := by
  intro b hb
  unfold u64le at hb
  rcases List.mem_append.mp hb with hb | hb
  · exact u32le_bytes _ b hb
  · exact u32le_bytes _ b hb

theorem optU64le_bytes (o : Option Nat) : ∀ b ∈ optU64le o, b < 4294967296 := by
  intro b hb
  cases o with
  | none =>
    unfold optU64le at hb
    rcases List.mem_cons.mp hb with rfl | hb
    · omega
    · cases hb
  | some v =>
    unfold optU64le at hb
    rcases List.mem_cons.mp hb with rfl | hb
    · omega
    · exact u64le_bytes v b hb

theorem sysTimeLe_bytes (t : SysTime) : ∀ b ∈ sysTimeLe t, b < 4294967296 := by
  intro b hb
  unfold sysTimeLe at hb
  rcases List.mem_append.mp hb with hb | hb
  · exact u64le_bytes _ b hb
  · exact u32le_bytes _ b hb

theorem blocksLe_bytes : ∀ bl, ∀ b ∈ blocksLe bl, b < 4294967296 := by
  intro bl
  induction bl with
  | nil => intro b hb; cases hb
  | cons x bl ih =>
    intro b hb
    unfold blocksLe at hb
    rcases List.mem_append.mp hb with hb | hb
    · exact u32le_bytes x b hb
    · exact ih b hb

theorem sbEncode_bytes (s : Superblock) : ∀ b ∈ sbEncode s, b < 4294967296 := by
  intro b hb
  unfold sbEncode at hb
  simp only [List.append_assoc, List.mem_append] at hb
  rcases hb with hb | hb | hb | hb | hb | hb | hb | hb | hb | hb | hb | hb | hb | hb
  all_goals
    first
    | exact u32le_bytes _ b hb
    | exact u64le_bytes _ b hb
    | exact optU64le_bytes _ b hb

theorem inodeEncode_bytes (i : Inode) : ∀ b ∈ inodeEncode i, b < 4294967296 := by
  intro b hb
  unfold inodeEncode at hb
  simp only [List.append_assoc, List.mem_append] at hb
  rcases hb with hb | hb | hb | hb | hb | hb | hb | hb | hb | hb | hb | hb | hb | hb | hb
  all_goals
    first
    | exact u16le_bytes _ b hb
    | exact u32le_bytes _ b hb
    | exact u64le_bytes _ b hb
    | exact sysTimeLe_bytes _ b hb
    | exact blocksLe_bytes _ b hb

theorem nameLe_bytes (nm : Name) (hnm : ∀ b ∈ nm, b < 256) :
    ∀ b ∈ nameLe nm, b < 4294967296 := by
  intro b hb
  unfold nameLe at hb
  simp only [List.append_assoc, List.mem_append] at hb
  rcases hb with hb | hb | hb
  · exact u32le_bytes _ b hb
  · exact u64le_bytes _ b hb
  · have := hnm b hb
    omega

theorem entriesLe_bytes :
    ∀ l : List (Name × Nat), (∀ e ∈ l, ∀ b ∈ e.1, b < 256) →
      ∀ b ∈ entriesLe l, b < 4294967296 := by
  intro l
  induction l with
  | nil => intro _ b hb; cases hb
  | cons e l ih =>
    intro hl b hb
    obtain ⟨k, v⟩ := e
    unfold entriesLe at hb
    simp only [List.append_assoc, List.mem_append] at hb
    rcases hb with hb | hb | hb
    · exact nameLe_bytes k (hl (k, v) (List.mem_cons_self _ _)) b hb
    · exact u32le_bytes _ b hb
    · exact ih (fun e he => hl e (List.mem_cons_of_mem _ he)) b hb

theorem dirEncode_bytes (d : Directory)
    (h : ∀ e ∈ d.entries, ∀ b ∈ e.1, b < 256) :
    ∀ b ∈ dirEncode d, b < 4294967296 := by
  intro b hb
  unfold dirEncode at hb
  simp only [List.append_assoc, List.mem_append] at hb
  rcases hb with hb | hb | hb
  · exact u64le_bytes _ b hb
  · exact entriesLe_bytes d.entries h b hb
  · exact u32le_bytes _ b hb

theorem crc32Round_lt (c : Nat) (h : c < 4294967296) :
    crc32Round c < 4294967296 := by
  unfold crc32Round
  have h32 : (4294967296 : Nat) = 2 ^ 32 := by norm_num
  split
  · rw [h32]
    exact Nat.xor_lt_two_pow (by omega) (by norm_num)
  · omega

theorem crc32Byte_lt (c b : Nat) (hc : c < 4294967296) (hb : b < 4294967296) :
    crc32Byte c b < 4294967296 := by
  unfold crc32Byte
  have h32 : (4294967296 : Nat) = 2 ^ 32 := by norm_num
  have h0 : c ^^^ b < 4294967296 := by
    rw [h32]
    exact Nat.xor_lt_two_pow (by omega) (by omega)
  exact crc32Round_lt _ (crc32Round_lt _ (crc32Round_lt _ (crc32Round_lt _
    (crc32Round_lt _ (crc32Round_lt _ (crc32Round_lt _ (crc32Round_lt _ h0)))))))

theorem crc32_lt (bytes : List Nat) (h : ∀ b ∈ bytes, b < 4294967296) :
    crc32 bytes < 4294967296 := by
  unfold crc32
  have h32 : (4294967296 : Nat) = 2 ^ 32 := by norm_num
  have hfold : ∀ L : List Nat, (∀ b ∈ L, b < 4294967296) →
      ∀ c, c < 4294967296 → L.foldl crc32Byte c < 4294967296 := by
    intro L
    induction L with
    | nil => intro _ c hc; exact hc
    | cons x L ih =>
      intro hL c hc
      rw [List.foldl_cons]
      exact ih (fun b hb => hL b (List.mem_cons_of_mem _ hb)) _
        (crc32Byte_lt c x hc (hL x (List.mem_cons_self _ _)))
  rw [h32]
  exact Nat.xor_lt_two_pow (by norm_num)
    (by rw [← h32]; exact hfold bytes h 4294967295 (by norm_num))

end SerFacts

namespace SerFacts

theorem sbWf_set_checksum (s : Superblock) (a : Nat) (h : sbWf s)
    (ha : a < 4294967296) : sbWf { s with checksum := a } := by
  obtain ⟨h1, h2, h3, h4, h5, h6, h7, h8, h9, h10, h11, h12, h13, _⟩ := h
  exact ⟨h1, h2, h3, h4, h5, h6, h7, h8, h9, h10, h11, h12, h13, ha⟩

theorem inodeWf_set_checksum (i : Inode) (a : Nat) (h : inodeWf i)
    (ha : a < 4294967296) : inodeWf { i with checksum := a } := by
  obtain ⟨h1, h2, h3, h4, h5, h6, h7, h8, h9, h10, h11, h12, h13, h14, _,
    h16⟩ := h
  exact ⟨h1, h2, h3, h4, h5, h6, h7, h8, h9, h10, h11, h12, h13, h14, ha, h16⟩

theorem dirWf_set_checksum (d : Directory) (a : Nat) (h : dirWf d)
    (ha : a < 4294967296) : dirWf { d with checksum := a } := by
  obtain ⟨h1, h2, _⟩ := h
  exact ⟨h1, h2, ha⟩

theorem sbRoundTrip (s : Superblock) (h : sbWf s) :
    sbDeserialize (sbSerialize s)
      = .ok { s with checksum := crc32 (sbEncode { s with checksum := 0 }) } := by
  have hc : crc32 (sbEncode { s with checksum := 0 }) < 4294967296 :=
    crc32_lt _ (sbEncode_bytes _)
  unfold sbSerialize sbDeserialize
  rw [← List.append_nil (sbEncode { s with checksum := crc32 (sbEncode { s with checksum := 0 }) })]
  rw [sbDecode_encode _ [] (sbWf_set_checksum s _ h hc)]
  dsimp only
  have hcond : ({ s with checksum := crc32 (sbEncode { s with checksum := 0 }) } : Superblock).checksum = crc32 (sbEncode { { s with checksum := crc32 (sbEncode { s with checksum := 0 }) } with checksum := 0 }) := rfl
  rw [if_pos hcond]

theorem inodeRoundTrip (i : Inode) (h : inodeWf i) :
    inodeDeserialize (inodeSerialize i)
      = .ok { i with checksum := crc32 (inodeEncode { i with checksum := 0 }) } := by
  have hc : crc32 (inodeEncode { i with checksum := 0 }) < 4294967296 :=
    crc32_lt _ (inodeEncode_bytes _)
  unfold inodeSerialize inodeDeserialize
  rw [← List.append_nil (inodeEncode { i with checksum := crc32 (inodeEncode { i with checksum := 0 }) })]
  rw [inodeDecode_encode _ [] (inodeWf_set_checksum i _ h hc)]
  dsimp only
  have hcond : ({ i with checksum := crc32 (inodeEncode { i with checksum := 0 }) } : Inode).checksum = crc32 (inodeEncode { { i with checksum := crc32 (inodeEncode { i with checksum := 0 }) } with checksum := 0 }) := rfl
  rw [if_pos hcond]

theorem dirRoundTrip (d : Directory) (h : dirWf d) :
    dirDeserialize (dirSerialize d)
      = .ok { d with checksum := crc32 (dirEncode { d with checksum := 0 }) } := by
  have hc : crc32 (dirEncode { d with checksum := 0 }) < 4294967296 :=
    crc32_lt _ (dirEncode_bytes _ (fun e he => (h.2.1 e he).2.2))
  unfold dirSerialize dirDeserialize
  rw [← List.append_nil (dirEncode { d with checksum := crc32 (dirEncode { d with checksum := 0 }) })]
  rw [dirDecode_encode _ [] (dirWf_set_checksum d _ h hc)]
  dsimp only
  have hcond : ({ d with checksum := crc32 (dirEncode { d with checksum := 0 }) } : Directory).checksum = crc32 (dirEncode { { d with checksum := crc32 (dirEncode { d with checksum := 0 }) } with checksum := 0 }) := rfl
  rw [if_pos hcond]

end SerFacts

/-- **C7** (amended).  Serialising a `Superblock`, `Inode` or `Directory`
(which zeroes and recomputes the checksum field) and deserialising the bytes
yields the value back with the recomputed checksum.  The claim's second
half — that mutating *any* field of the encoded record without recomputing
the checksum makes deserialisation fail — is false: CRC-32 is linear, and a
64-bit field admits a checksum-preserving change (see the
counterexample). -/
theorem claim_C7 (s : Superblock) (i : Inode) (d : Directory)
    (hs : sbWf s) (hi : inodeWf i) (hd : dirWf d) :
    sbDeserialize (sbSerialize s)
        = .ok { s with checksum := crc32 (sbEncode { s with checksum := 0 }) } ∧
      inodeDeserialize (inodeSerialize i)
        = .ok { i with checksum := crc32 (inodeEncode { i with checksum := 0 }) } ∧
      dirDeserialize (dirSerialize d)
        = .ok { d with checksum := crc32 (dirEncode { d with checksum := 0 }) } :=
  ⟨SerFacts.sbRoundTrip s hs, SerFacts.inodeRoundTrip i hi,
    SerFacts.dirRoundTrip d hd⟩

/-- **C7** witness: the round trip at `c3State`'s superblock, the concrete
inode, and a one-entry directory. -/
theorem claim_C7_witness :
    sbDeserialize (sbSerialize c3State.sb)
        = .ok { c3State.sb with
            checksum := crc32 (sbEncode { c3State.sb with checksum := 0 }) } ∧
      inodeDeserialize (inodeSerialize c7Inode)
        = .ok { c7Inode with
            checksum := crc32 (inodeEncode { c7Inode with checksum := 0 }) } ∧
      dirDeserialize (dirSerialize (⟨[([97], 2)], 0⟩ : Directory))
        = .ok { (⟨[([97], 2)], 0⟩ : Directory) with
            checksum := crc32 (dirEncode
              { (⟨[([97], 2)], 0⟩ : Directory) with checksum := 0 }) } :=
  claim_C7 c3State.sb c7Inode ⟨[([97], 2)], 0⟩
    (by unfold sbWf; decide) (by unfold inodeWf stWf; decide)
    (by unfold dirWf; decide)

set_option maxRecDepth 10000 in
/-- The chunked CRC evaluation of the two encodings of the `claim_C7`
counterexample (the full 138-byte fold split to keep reductions shallow):
the original and the size-mutated inode encodings share the checksum
`539617490`. -/
theorem SerFacts.c7crc :
    crc32 (inodeEncode { c7Inode with checksum := 0 }) = 539617490 ∧
      crc32 (inodeEncode { c7Inode with size := 7976584769, checksum := 0 })
        = 539617490 := by
  -- chunks differing between the two messages: [1]
  have h0a : List.foldl crc32Byte 4294967295 [164, 129, 0, 0, 1, 0, 232, 3, 0, 0, 232, 3] = 923178839 := by decide
  have h1a : List.foldl crc32Byte 923178839 [0, 0, 1, 0, 0, 0, 0, 0, 0, 0, 0, 0] = 272884022 := by decide
  have h1b : List.foldl crc32Byte 923178839 [0, 0, 1, 0, 0, 0, 65, 6, 113, 219, 1, 0] = 272884022 := by decide
  have h2a : List.foldl crc32Byte 272884022 [0, 0, 0, 241, 83, 101, 0, 0, 0, 0, 5, 0] = 977249706 := by decide
  have h3a : List.foldl crc32Byte 977249706 [0, 0, 0, 241, 83, 101, 0, 0, 0, 0, 5, 0] = 3469831537 := by decide
  have h4a : List.foldl crc32Byte 3469831537 [0, 0, 1, 241, 83, 101, 0, 0, 0, 0, 6, 0] = 3729499663 := by decide
  have h5a : List.foldl crc32Byte 3729499663 [0, 0, 1, 241, 83, 101, 0, 0, 0, 0, 6, 0] = 3958441344 := by decide
  have h6a : List.foldl crc32Byte 3958441344 [0, 0, 1, 0, 0, 0, 2, 0, 0, 0, 0, 0] = 4101501190 := by decide
  have h7a : List.foldl crc32Byte 4101501190 [0, 0, 0, 0, 0, 0, 0, 0, 0, 0, 0, 0] = 2029982011 := by decide
  have h8a : List.foldl crc32Byte 2029982011 [0, 0, 0, 0, 0, 0, 0, 0, 0, 0, 0, 0] = 2701082584 := by decide
  have h9a : List.foldl crc32Byte 2701082584 [0, 0, 0, 0, 0, 0, 0, 0, 0, 0, 0, 0] = 3837897008 := by decide
  have h10a : List.foldl crc32Byte 3837897008 [0, 0, 0, 0, 0, 0, 0, 0, 0, 0, 0, 0] = 1857947569 := by decide
  have h11a : List.foldl crc32Byte 1857947569 [0, 0, 0, 2, 0, 0] = 3755349805 := by decide
  have hb0 : inodeEncode { c7Inode with checksum := 0 } = [164, 129, 0, 0, 1, 0, 232, 3, 0, 0, 232, 3] ++ ([0, 0, 1, 0, 0, 0, 0, 0, 0, 0, 0, 0] ++ ([0, 0, 0, 241, 83, 101, 0, 0, 0, 0, 5, 0] ++ ([0, 0, 0, 241, 83, 101, 0, 0, 0, 0, 5, 0] ++ ([0, 0, 1, 241, 83, 101, 0, 0, 0, 0, 6, 0] ++ ([0, 0, 1, 241, 83, 101, 0, 0, 0, 0, 6, 0] ++ ([0, 0, 1, 0, 0, 0, 2, 0, 0, 0, 0, 0] ++ ([0, 0, 0, 0, 0, 0, 0, 0, 0, 0, 0, 0] ++ ([0, 0, 0, 0, 0, 0, 0, 0, 0, 0, 0, 0] ++ ([0, 0, 0, 0, 0, 0, 0, 0, 0, 0, 0, 0] ++ ([0, 0, 0, 0, 0, 0, 0, 0, 0, 0, 0, 0] ++ ([0, 0, 0, 2, 0, 0]))))))))))) := by decide
  have hb1 : inodeEncode { c7Inode with size := 7976584769, checksum := 0 } = [164, 129, 0, 0, 1, 0, 232, 3, 0, 0, 232, 3] ++ ([0, 0, 1, 0, 0, 0, 65, 6, 113, 219, 1, 0] ++ ([0, 0, 0, 241, 83, 101, 0, 0, 0, 0, 5, 0] ++ ([0, 0, 0, 241, 83, 101, 0, 0, 0, 0, 5, 0] ++ ([0, 0, 1, 241, 83, 101, 0, 0, 0, 0, 6, 0] ++ ([0, 0, 1, 241, 83, 101, 0, 0, 0, 0, 6, 0] ++ ([0, 0, 1, 0, 0, 0, 2, 0, 0, 0, 0, 0] ++ ([0, 0, 0, 0, 0, 0, 0, 0, 0, 0, 0, 0] ++ ([0, 0, 0, 0, 0, 0, 0, 0, 0, 0, 0, 0] ++ ([0, 0, 0, 0, 0, 0, 0, 0, 0, 0, 0, 0] ++ ([0, 0, 0, 0, 0, 0, 0, 0, 0, 0, 0, 0] ++ ([0, 0, 0, 2, 0, 0]))))))))))) := by decide
  constructor
  · rw [hb0]
    unfold crc32
    rw [List.foldl_append, List.foldl_append, List.foldl_append, List.foldl_append, List.foldl_append, List.foldl_append, List.foldl_append, List.foldl_append, List.foldl_append, List.foldl_append, List.foldl_append]
    rw [h0a, h1a, h2a, h3a, h4a, h5a, h6a, h7a, h8a, h9a, h10a, h11a]
    decide
  · rw [hb1]
    unfold crc32
    rw [List.foldl_append, List.foldl_append, List.foldl_append, List.foldl_append, List.foldl_append, List.foldl_append, List.foldl_append, List.foldl_append, List.foldl_append, List.foldl_append, List.foldl_append]
    rw [h0a, h1b, h2a, h3a, h4a, h5a, h6a, h7a, h8a, h9a, h10a, h11a]
    decide

/-- **C7** counterexample: the serialised `c7Inode` carries checksum
`539617490`; XORing its encoded 64-bit `size` field with `0x1DB710641` (the
CRC-32 generator polynomial) is a same-length mutation of that one field
that leaves the checksum valid — deserialisation *succeeds* with the
corrupted size instead of returning an error. -/
theorem claim_C7_counterexample :
    inodeSerialize c7Inode
        = inodeEncode { c7Inode with checksum := 539617490 } ∧
      (inodeEncode { c7Inode with size := 7976584769, checksum := 539617490 }).length
        = (inodeEncode { c7Inode with checksum := 539617490 }).length ∧
      inodeEncode { c7Inode with size := 7976584769, checksum := 539617490 }
        ≠ inodeEncode { c7Inode with checksum := 539617490 } ∧
      inodeDeserialize
          (inodeEncode { c7Inode with size := 7976584769, checksum := 539617490 })
        = .ok { c7Inode with size := 7976584769, checksum := 539617490 } := by
  obtain ⟨hcrc0, hcrc1⟩ := SerFacts.c7crc
  refine ⟨?_, rfl, by decide, ?_⟩
  · unfold inodeSerialize
    rw [hcrc0]
  · unfold inodeDeserialize
    rw [← List.append_nil (inodeEncode
      { c7Inode with size := 7976584769, checksum := 539617490 })]
    rw [SerFacts.inodeDecode_encode _ []
      (by unfold inodeWf stWf; decide)]
    dsimp only
    rw [if_pos ?hcond]
    case hcond =>
      show (539617490 : Nat)
        = crc32 (inodeEncode { c7Inode with size := 7976584769, checksum := 0 })
      exact hcrc1.symm

end Ferrix
